import Mathlib

/-!
Verification development for the typeshed-to-Ariadne converter
(`src/converter/converter.py`).  The Python source is shallowly embedded:
the mutable `xml.etree.ElementTree` tree is modelled as a pure inductive
`Xml` tree, in-place appends become explicitly returned lists of appended
children, the `tmp_var_name_index` counter is threaded as explicit state,
and Python `assert` failures become an error-carrying result type whose
error constructor still records everything appended before the failure
(matching in-place mutation semantics).
-/

namespace Typeshed

/-- A Python runtime value that can reach `PythonType2AriadneType.convertString`:
the converter passes it identifier strings (`tree.id`, `"tuple"`, `"list"`),
constant values of `ast.Constant` nodes (`None`, strings, `...`), or `None`. -/
inductive ConstVal where
  | noneV : ConstVal
  | str : String → ConstVal
  | ellipsis : ConstVal
deriving DecidableEq, Repr

/-- Python's `str()` of such a value, as used by the f-string `f"L{python_type}"`. -/
def ConstVal.pyStr : ConstVal → String
  | .noneV => "None"
  | .str s => s
  | .ellipsis => "Ellipsis"

/-- The dictionary `PythonType2AriadneType.string2AriadneString`, in source order. -/
def string2AriadneString : List (String × String) :=
  [("bool", "Z"), ("int", "int"), ("float", "D"), ("str", "Lstring"),
   ("list", "Llist"), ("set", "Lset"), ("tuple", "Ltuple"), ("dict", "Ldict"),
   ("None", "LNone"), ("Any", "Lobject")]

/-- `PythonType2AriadneType.convertString`: dictionary lookup (only string
values can match the string keys), then the `python_type is None` test,
then the fallback `f"L{python_type}"`. -/
def convertString (python_type : ConstVal) : String :=
  match python_type with
  | .str s =>
    match string2AriadneString.lookup s with
    | some t => t
    | none => "L" ++ s
  | .noneV => "LNone"
  | v => "L" ++ v.pyStr

/-! ### Decimal rendering of naturals

Python renders the non-negative integers appearing in the converter
(`f"_typeshed{index}"`, `str(index)`, `str(num_args)`) as ordinary decimal
numerals.  `pyRepr` is that decimal rendering. -/

/-- The decimal digit character for `d < 10` (and a dummy otherwise). -/
def digitChar (d : Nat) : Char :=
  match d with
  | 0 => '0' | 1 => '1' | 2 => '2' | 3 => '3' | 4 => '4'
  | 5 => '5' | 6 => '6' | 7 => '7' | 8 => '8' | 9 => '9'
  | _ => '*'

/-- Decimal digit list of `n`, most significant first. -/
def pyReprAux (n : Nat) : List Char :=
  if h : n < 10 then [digitChar n]
  else pyReprAux (n / 10) ++ [digitChar (n % 10)]
termination_by n
decreasing_by
  exact Nat.div_lt_self (by omega) (by omega)

/-- Python's `str(n)` for a natural number `n`: the decimal numeral. -/
def pyRepr (n : Nat) : String := ⟨pyReprAux n⟩


/-! ### Syntax-tree nodes

The `ast` node kinds read by the converter, plus representative node kinds
outside the recognized sets (`attribute` for `ast.Attribute`, `call` for
`ast.Call` among expressions; `forStmt` for `ast.For`, `withStmt` for
`ast.With` among statements), which the converter's catch-all
`assert`s reject. -/

/-- Type-annotation expression nodes (`ast.expr`). -/
inductive Expr where
  | name (id : String)
  | subscript (value : Expr) (slice : Expr)
  | binOp (left : Expr) (right : Expr)
  | constant (value : ConstVal)
  | tuple (elts : List Expr)
  | list (elts : List Expr)
  | attribute (value : Expr) (attr : String)
  | call (func : Expr)

/-- `ast.arguments`: positional and keyword-only formal-argument names. -/
structure Arguments where
  args : List String
  kwonlyargs : List String
deriving DecidableEq, Repr

/-- Top-level statement nodes (`ast.stmt`).  Payloads the converter never
reads (import targets, `if` bodies, assignment right-hand sides, ...) are
omitted. -/
inductive Stmt where
  | functionDef (name : String) (args : Arguments)
      (decorator_list : List Expr) (returns : Option Expr)
  | classDef (name : String) (body : List Stmt)
  | assign
  | annAssign (target : Expr) (ann : Expr)
  | importStmt
  | importFrom
  | ifStmt
  | exprStmt
  | forStmt
  | withStmt

/-- An `xml.etree.ElementTree` element: tag, attributes in insertion order,
children in append order. -/
inductive Xml where
  | elem (tag : String) (attrs : List (String × String)) (children : List Xml)

/-- Result of a translation step.  `err` models a Python `AssertionError`;
since the element tree is mutated in place, the error constructor still
carries everything appended before the failure. -/
inductive Res (α : Type) where
  | ok (val : α) : Res α
  | err (val : α) : Res α

/-- The tree state carried by a result, whether or not the step succeeded. -/
def Res.val {α : Type} : Res α → α
  | .ok v => v
  | .err v => v

/-- Did the step complete without an assertion failure? -/
def Res.isOk {α : Type} : Res α → Bool
  | .ok _ => true
  | .err _ => false

/-- A `new` instruction element (attributes in source order). -/
def newTag (d cls : String) : Xml := .elem "new" [("def", d), ("class", cls)] []

/-- A `putfield` instruction element (attributes in source order; `class`
and `fieldType` are fixed to `LRoot` at every call site). -/
def putfieldTag (field ref value : String) : Xml :=
  .elem "putfield"
    [("class", "LRoot"), ("field", field), ("fieldType", "LRoot"),
     ("ref", ref), ("value", value)] []

/-- A `return` instruction element. -/
def returnTag (v : String) : Xml := .elem "return" [("value", v)] []

/-- `Converter._get_tmp_var_name` run at counter value `i`:
the string `f"_typeshed{index}"`. -/
def tmpName (i : Nat) : String := "_typeshed" ++ pyRepr i

/-- `Converter._get_num_args`. -/
def getNumArgs (a : Arguments) : Nat := a.args.length + a.kwonlyargs.length

/-- `Converter._get_arg_names`: positional then keyword-only names, each
followed by a space, with the final character removed (`result[:-1]`). -/
def getArgNames (a : Arguments) : String :=
  let result := a.args.foldl (fun acc s => acc ++ s ++ " ") ""
  let result :=
    if a.kwonlyargs.length ≠ 0 then
      a.kwonlyargs.foldl (fun acc s => acc ++ s ++ " ") result
    else result
  result.dropRight 1

/-- `Converter._get_expr_type`.  The argument is `Option Expr` because the
Python call sites can pass `None` (a function's absent `returns`
annotation flows here through `_convert_expr`); `none` as a result models
the `assert 0, tree` failure. -/
def getExprType : Option Expr → Option String
  | some (.name id) => some (convertString (.str id))
  | some (.subscript v _) => getExprType (some v)
  | some (.binOp l r) =>
    match getExprType (some l) with
    | none => none
    | some tl =>
      match getExprType (some r) with
      | none => none
      | some tr => some (tl ++ " " ++ tr)
  | some (.constant v) => some (convertString v)
  | _ => none
termination_by e => sizeOf e
decreasing_by all_goals (simp_wf <;> omega)

/-- Result of `Converter._convert_expr`: the counter after the call, the
elements appended to `parent_tag`, and the returned `new_var_name`. -/
structure EmitE where
  counter : Nat
  instrs : List Xml
  name : String

mutual

/-- `Converter._convert_expr`.  A fresh temporary name is allocated before
the dispatch; on success, if `putVarName` is given a trailing `putfield`
of the constructed root at field `str(index)` is appended. -/
def convertExpr (e : Option Expr) (putVarName : Option String) (index c : Nat) :
    Res EmitE :=
  let newVarName := tmpName c
  let core : Res (Nat × List Xml) :=
    match e with
    | some (.tuple elts) =>
      let t := convertString (.str "tuple")
      match convertExprList elts newVarName 0 (c + 1) with
      | .ok (c2, l) => .ok (c2, newTag newVarName t :: l)
      | .err (c2, l) => .err (c2, newTag newVarName t :: l)
    | some (.list elts) =>
      let t := convertString (.str "list")
      match convertExprList elts newVarName 0 (c + 1) with
      | .ok (c2, l) => .ok (c2, newTag newVarName t :: l)
      | .err (c2, l) => .err (c2, newTag newVarName t :: l)
    | some (.subscript v (.tuple elts)) =>
      match getExprType (some v) with
      | none => .err (c + 1, [])
      | some t =>
        match convertExprList elts newVarName 0 (c + 1) with
        | .ok (c2, l) => .ok (c2, newTag newVarName t :: l)
        | .err (c2, l) => .err (c2, newTag newVarName t :: l)
    | some (.subscript v (.list elts)) =>
      match getExprType (some v) with
      | none => .err (c + 1, [])
      | some t =>
        match convertExprList elts newVarName 0 (c + 1) with
        | .ok (c2, l) => .ok (c2, newTag newVarName t :: l)
        | .err (c2, l) => .err (c2, newTag newVarName t :: l)
    | some (.subscript v s) =>
      match getExprType (some v) with
      | none => .err (c + 1, [])
      | some t =>
        match convertExpr (some s) (some newVarName) 0 (c + 1) with
        | .ok r => .ok (r.counter, newTag newVarName t :: r.instrs)
        | .err r => .err (r.counter, newTag newVarName t :: r.instrs)
    | e2 =>
      match getExprType e2 with
      | none => .err (c + 1, [])
      | some t => .ok (c + 1, [newTag newVarName t])
  match core with
  | .err (c2, l) => .err ⟨c2, l, newVarName⟩
  | .ok (c2, l) =>
    match putVarName with
    | some p => .ok ⟨c2, l ++ [putfieldTag (pyRepr index) p newVarName], newVarName⟩
    | none => .ok ⟨c2, l, newVarName⟩
termination_by (sizeOf e, 0)
decreasing_by all_goals (simp_wf <;> omega)

/-- The `for e in t.elts` loops of `_convert_expr`: translate the elements
in order with increasing field index, threading the counter, stopping at
the first assertion failure. -/
def convertExprList (elts : List Expr) (putVarName : String) (index c : Nat) :
    Res (Nat × List Xml) :=
  match elts with
  | [] => .ok (c, [])
  | e :: rest =>
    match convertExpr (some e) (some putVarName) index c with
    | .err r => .err (r.counter, r.instrs)
    | .ok r =>
      match convertExprList rest putVarName (index + 1) r.counter with
      | .ok (c2, l) => .ok (c2, r.instrs ++ l)
      | .err (c2, l) => .err (c2, r.instrs ++ l)
termination_by (sizeOf elts, 1)
decreasing_by all_goals (simp_wf <;> omega)

end

/-- `Converter.convert_return`: translate the return annotation, then
append a `return` of the root name. -/
def convertReturn (ret : Option Expr) (c : Nat) : Res (Nat × List Xml) :=
  match convertExpr ret none 0 c with
  | .err r => .err (r.counter, r.instrs)
  | .ok r => .ok (r.counter, r.instrs ++ [returnTag r.name])

/-- The decorator loop of `convert_global`'s `FunctionDef` branch:
`some true` means a decorator `ast.Name` with id `overload` was reached
(the branch returns without emitting), `some false` means the list was
exhausted (translation proceeds), `none` means the
`assert isinstance(d, ast.Name)` failed first. -/
def scanDecorators : List Expr → Option Bool
  | [] => some false
  | .name id :: rest => if id == "overload" then some true else scanDecorators rest
  | _ :: _ => none

/-- Result of `Converter.convert_global` on one top-level node: the counter
after the call and the elements appended, respectively, to the current
method tag (`def_method_tag`), to the function-definition package, to the
class-definition package, and to the `classloader` tag. -/
structure GOut where
  counter : Nat
  instrs : List Xml
  funcPkgAdds : List Xml
  classPkgAdds : List Xml
  loaderAdds : List Xml

/-- Sequential composition of the appends of two successive
`convert_global` calls (the second starting at the first's counter). -/
def mergeG (g g2 : GOut) : GOut :=
  ⟨g2.counter, g.instrs ++ g2.instrs, g.funcPkgAdds ++ g2.funcPkgAdds,
   g.classPkgAdds ++ g2.classPkgAdds, g.loaderAdds ++ g2.loaderAdds⟩

mutual

/-- `Converter.convert_global`.  `pkgName` isic `self.package_name`;
`returnObjName`, `funcPkgName`, `classPkgName` are the `return_obj_name`,
`function_def_package_name`, `class_def_package_name` arguments. -/
def convertGlobal (pkgName : String) (tree : Stmt)
    (returnObjName funcPkgName classPkgName : String) (c : Nat) : Res GOut :=
  match tree with
  | .functionDef funcName args decorators returns =>
    match scanDecorators decorators with
    | none => .err ⟨c, [], [], [], []⟩
    | some true => .ok ⟨c, [], [], [], []⟩
    | some false =>
      let tmpFuncName := funcName ++ "_typeshed_"
      let instrs0 :=
        [newTag tmpFuncName ("L" ++ funcPkgName ++ "/" ++ funcName),
         putfieldTag funcName returnObjName tmpFuncName]
      let doAttrs :=
        [("name", "do"), ("descriptor", "()LRoot;"),
         ("num_args", pyRepr (getNumArgs args)),
         ("param_names", getArgNames args), ("static", "true")]
      match convertReturn returns c with
      | .ok (c2, body) =>
        .ok ⟨c2, instrs0,
             [Xml.elem "class" [("name", funcName), ("allocatable", "true")]
               [Xml.elem "method" doAttrs body]], [], []⟩
      | .err (c2, body) =>
        .err ⟨c2, instrs0,
             [Xml.elem "class" [("name", funcName), ("allocatable", "true")]
               [Xml.elem "method" doAttrs body]], [], []⟩
  | .classDef className body =>
    let tmpClassName := className ++ "_typeshed_"
    let instrs0 :=
      [newTag tmpClassName ("L" ++ classPkgName ++ "/" ++ className),
       putfieldTag className returnObjName tmpClassName]
    let methodPkgName := pkgName ++ "/" ++ className
    let resultObjName := className ++ "_typeshed_"
    let seed := newTag tmpClassName ("L" ++ classPkgName ++ "/" ++ className)
    match convertGlobalList pkgName body resultObjName methodPkgName classPkgName c with
    | .ok g =>
      .ok ⟨g.counter, instrs0, [],
           (Xml.elem "class" [("name", className), ("allocatable", "true")]
             [Xml.elem "method" [("name", "do"), ("descriptor", "()LRoot;")]
               (seed :: (g.instrs ++ [returnTag resultObjName]))]) :: g.classPkgAdds,
           (Xml.elem "package" [("name", methodPkgName)] g.funcPkgAdds) :: g.loaderAdds⟩
    | .err g =>
      .err ⟨g.counter, instrs0, [],
           (Xml.elem "class" [("name", className), ("allocatable", "true")]
             [Xml.elem "method" [("name", "do"), ("descriptor", "()LRoot;")]
               (seed :: g.instrs)]) :: g.classPkgAdds,
           (Xml.elem "package" [("name", methodPkgName)] g.funcPkgAdds) :: g.loaderAdds⟩
  | .assign => .ok ⟨c, [], [], [], []⟩
  | .annAssign target ann =>
    match target with
    | .name varName =>
      let tmpVarName := varName ++ "_typeshed_"
      match getExprType (some ann) with
      | none => .err ⟨c, [], [], [], []⟩
      | some t =>
        .ok ⟨c, [newTag tmpVarName t, putfieldTag varName returnObjName tmpVarName],
             [], [], []⟩
    | _ => .err ⟨c, [], [], [], []⟩
  | .importStmt => .ok ⟨c, [], [], [], []⟩
  | .importFrom => .ok ⟨c, [], [], [], []⟩
  | .ifStmt => .ok ⟨c, [], [], [], []⟩
  | .exprStmt => .ok ⟨c, [], [], [], []⟩
  | _ => .err ⟨c, [], [], [], []⟩
termination_by (sizeOf tree, 0)
decreasing_by all_goals (simp_wf <;> omega)

/-- The `for tree in ...body` loops of `convert` and of the `ClassDef`
branch: convert statements in order, threading the counter, stopping at
the first assertion failure (whose partial appends are kept). -/
def convertGlobalList (pkgName : String) (trees : List Stmt)
    (returnObjName funcPkgName classPkgName : String) (c : Nat) : Res GOut :=
  match trees with
  | [] => .ok ⟨c, [], [], [], []⟩
  | t :: rest =>
    match convertGlobal pkgName t returnObjName funcPkgName classPkgName c with
    | .err g => .err g
    | .ok g =>
      match convertGlobalList pkgName rest returnObjName funcPkgName classPkgName g.counter with
      | .ok g2 => .ok (mergeG g g2)
      | .err g2 => .err (mergeG g g2)
termination_by (sizeOf trees, 1)
decreasing_by all_goals (simp_wf <;> omega)

end

/-- The fixed skeleton built by `Converter.convert` around the appends of
the top-level loop: the root `summary-spec` element, the `PythonLoader`
classloader, the module class with its `import` method (whose body begins
with the `new` of `obj_typeshed_` and, when the loop completed, ends with
the `return` of it), and the `function` and `class` packages.  `completed`
records whether the loop ran to the end (the trailing `return` of
the import method is only appended then). -/
def summarySpec (pkgName : String) (g : GOut) (completed : Bool) : Xml :=
  let importBody :=
    newTag "obj_typeshed_" ("L" ++ pkgName) ::
      (g.instrs ++ (if completed then [returnTag "obj_typeshed_"] else []))
  Xml.elem "summary-spec" []
    [Xml.elem "classloader" [("name", "PythonLoader")]
      ([Xml.elem "class" [("name", pkgName), ("allocatable", "true")]
          [Xml.elem "method"
            [("name", "import"), ("static", "true"),
             ("descriptor", "()L" ++ pkgName ++ ";")] importBody],
        Xml.elem "package" [("name", pkgName ++ "/function")] g.funcPkgAdds,
        Xml.elem "package" [("name", pkgName ++ "/class")] g.classPkgAdds]
       ++ g.loaderAdds)]

/-- `Converter.convert` for a module whose parsed body is `body`, with
`self.package_name = pkgName` and the counter starting at `0`. -/
def convert (pkgName : String) (body : List Stmt) : Res Xml :=
  match convertGlobalList pkgName body "obj_typeshed_"
      (pkgName ++ "/function") (pkgName ++ "/class") 0 with
  | .ok g => .ok (summarySpec pkgName g true)
  | .err g => .err (summarySpec pkgName g false)

/-! ### Extractors over the generated tree -/

/-- The tag of an element. -/
def Xml.tag : Xml → String
  | .elem t _ _ => t

/-- The attribute list of an element. -/
def Xml.attrList : Xml → List (String × String)
  | .elem _ a _ => a

/-- The children of an element. -/
def Xml.children : Xml → List Xml
  | .elem _ _ ch => ch

/-- The `name` attribute of an element, if present. -/
def nameAttr (x : Xml) : Option String := x.attrList.lookup "name"

mutual

/-- Every method body (children list of a `method`-tagged element)
occurring in an element, in document order. -/
def allMethodBodies (x : Xml) : List (List Xml) :=
  match x with
  | .elem t _ ch => (if t == "method" then [ch] else []) ++ allMethodBodiesList ch
termination_by (sizeOf x, 0)
decreasing_by all_goals (simp_wf <;> omega)

/-- `allMethodBodies` over a list of elements. -/
def allMethodBodiesList (l : List Xml) : List (List Xml) :=
  match l with
  | [] => []
  | x :: rest => allMethodBodies x ++ allMethodBodiesList rest
termination_by (sizeOf l, 1)
decreasing_by all_goals (simp_wf <;> omega)

end

/-- The construction-target (`def` attribute) of every `new` instruction in
a method body, in order. -/
def newDefs (body : List Xml) : List String :=
  body.filterMap (fun x =>
    match x with
    | .elem "new" attrs _ => attrs.lookup "def"
    | _ => none)

/-- `Converter._get_tmp_var_name` as a state transformer: return the name
for the current counter and the incremented counter. -/
def getTmpVarName (i : Nat) : String × Nat := (tmpName i, i + 1)

/-- The names returned by `n` successive allocator calls starting at
counter value `c`. -/
def allocRun : Nat → Nat → List String
  | 0, _ => []
  | n + 1, c => (getTmpVarName c).1 :: allocRun n (getTmpVarName c).2

/-- The top-level statement kinds `convert_global` dispatches on (all
others hit its final `assert 0`). -/
def recognizedTopStmt : Stmt → Bool
  | .functionDef _ _ _ _ => true
  | .classDef _ _ => true
  | .assign => true
  | .annAssign _ _ => true
  | .importStmt => true
  | .importFrom => true
  | .ifStmt => true
  | .exprStmt => true
  | _ => false

/-- The type-expression kinds `_convert_expr`/`_get_expr_type` dispatch on
(all others hit the `assert 0` of `_get_expr_type`). -/
def recognizedTypeExpr : Expr → Bool
  | .name _ => true
  | .subscript _ _ => true
  | .binOp _ _ => true
  | .constant _ => true
  | .tuple _ => true
  | .list _ => true
  | _ => false

mutual

/-- Names of the class definitions occurring in a statement, at every
nesting depth, in conversion (preorder) order. -/
def classNamesPre (s : Stmt) : List String :=
  match s with
  | .classDef n body => n :: classNamesPreList body
  | _ => []
termination_by (sizeOf s, 0)
decreasing_by all_goals (simp_wf <;> omega)

/-- `classNamesPre` over a statement list. -/
def classNamesPreList (l : List Stmt) : List String :=
  match l with
  | [] => []
  | s :: rest => classNamesPre s ++ classNamesPreList rest
termination_by (sizeOf l, 1)
decreasing_by all_goals (simp_wf <;> omega)

end

/-- The direct children of the `classloader` element of a generated
`summary-spec` document. -/
def loaderChildren (doc : Xml) : List Xml :=
  (doc.children.headD (Xml.elem "" [] [])).children

/-- Two construction-target names that are not the same generated name:
whenever both are of the generated form `_typeshed<k>`, their indices
differ.  (Declared names satisfy this vacuously.) -/
def GenDistinct (s1 s2 : String) : Prop :=
  ∀ k, s1 = tmpName k → s2 ≠ tmpName k

/-- Freshness invariant for a list of construction-target names emitted
between counter values `c` and `c2`: every generated name among them has
its index in `[c, c2)`, and no generated name occurs twice. -/
def GoodList (c c2 : Nat) (l : List String) : Prop :=
  (∀ s ∈ l, ∀ k, s = tmpName k → c ≤ k ∧ k < c2) ∧ l.Pairwise GenDistinct

/-- Freshness invariant for one `convert_global` output starting at
counter `c`: the counter does not decrease; the construction targets
appended to the current method body satisfy `GoodList`; the appended
instruction elements contain no method bodies of their own; and every
method body inside the appended package/class elements satisfies
`GoodList` over the same counter window. -/
def GoodGOut (c : Nat) (g : GOut) : Prop :=
  c ≤ g.counter ∧
  GoodList c g.counter (newDefs g.instrs) ∧
  allMethodBodiesList g.instrs = [] ∧
  ∀ mb ∈ allMethodBodiesList (g.funcPkgAdds ++ g.classPkgAdds ++ g.loaderAdds),
    GoodList c g.counter (newDefs mb)

/-! ### Name-discipline lemmas -/

theorem digitChar_injOn {d e : Nat} (hd : d < 10) (he : e < 10)
    (h : digitChar d = digitChar e) : d = e := by
  revert h
  interval_cases d <;> interval_cases e <;> simp [digitChar]

theorem digitChar_ne_underscore (d : Nat) : digitChar d ≠ '_' := by
  unfold digitChar
  split <;> decide

theorem pyReprAux_small {n : Nat} (h : n < 10) : pyReprAux n = [digitChar n] := by
  rw [pyReprAux]
  simp [h]

theorem pyReprAux_large {n : Nat} (h : ¬ n < 10) :
    pyReprAux n = pyReprAux (n / 10) ++ [digitChar (n % 10)] := by
  rw [pyReprAux]
  simp [h]

theorem pyReprAux_ne_nil (n : Nat) : pyReprAux n ≠ [] := by
  by_cases h : n < 10
  · rw [pyReprAux_small h]; simp
  · rw [pyReprAux_large h]; simp

theorem pyReprAux_getLast? (n : Nat) :
    (pyReprAux n).getLast? = some (digitChar (n % 10)) := by
  by_cases h : n < 10
  · rw [pyReprAux_small h]
    simp [Nat.mod_eq_of_lt h]
  · rw [pyReprAux_large h]
    simp

theorem pyReprAux_length_lt (n : Nat) (h : ¬ n < 10) :
    1 < (pyReprAux n).length := by
  rw [pyReprAux_large h]
  have h2 : 0 < (pyReprAux (n / 10)).length :=
    List.length_pos.mpr (pyReprAux_ne_nil (n / 10))
  simp only [List.length_append, List.length_singleton]
  omega

theorem pyReprAux_inj (m n : Nat) (h : pyReprAux m = pyReprAux n) : m = n := by
  induction m using Nat.strong_induction_on generalizing n with
  | _ m ih =>
    by_cases hm : m < 10 <;> by_cases hn : n < 10
    · rw [pyReprAux_small hm, pyReprAux_small hn] at h
      simp only [List.cons.injEq, and_true] at h
      exact digitChar_injOn hm hn h
    · exfalso
      have hlen := congrArg List.length h
      rw [pyReprAux_small hm] at hlen
      have := pyReprAux_length_lt n hn
      simp only [List.length_singleton] at hlen
      omega
    · exfalso
      have hlen := congrArg List.length h
      rw [pyReprAux_small hn] at hlen
      have := pyReprAux_length_lt m hm
      simp only [List.length_singleton] at hlen
      omega
    · rw [pyReprAux_large hm, pyReprAux_large hn] at h
      have h' := congrArg List.reverse h
      simp only [List.reverse_append, List.reverse_singleton,
        List.singleton_append, List.cons.injEq] at h'
      obtain ⟨hdig, hrev⟩ := h'
      have hquot : m / 10 = n / 10 := by
        have heq : pyReprAux (m / 10) = pyReprAux (n / 10) :=
          List.reverse_injective hrev
        exact ih (m / 10) (Nat.div_lt_self (by omega) (by omega)) _ heq
      have hmod : m % 10 = n % 10 :=
        digitChar_injOn (Nat.mod_lt _ (by omega)) (Nat.mod_lt _ (by omega)) hdig
      omega

theorem pyRepr_inj {m n : Nat} (h : pyRepr m = pyRepr n) : m = n :=
  pyReprAux_inj m n (congrArg String.data h)

theorem tmpName_inj {k1 k2 : Nat} (h : tmpName k1 = tmpName k2) : k1 = k2 := by
  have hd := congrArg String.data h
  simp only [tmpName, String.data_append, pyRepr] at hd
  exact pyReprAux_inj k1 k2 (List.append_cancel_left hd)

/-- A declared name (`f"{name}_typeshed_"`) is never a generated name
(`f"_typeshed{index}"`): the former ends in an underscore, the latter in a
decimal digit. -/
theorem declared_ne_tmpName (s : String) (k : Nat) : s ++ "_typeshed_" ≠ tmpName k := by
  intro h
  have hd := congrArg String.data h
  simp only [tmpName, String.data_append, pyRepr] at hd
  have h1 := congrArg List.getLast? hd
  rw [List.getLast?_append_of_ne_nil _ (by decide),
      List.getLast?_append_of_ne_nil _ (pyReprAux_ne_nil k),
      pyReprAux_getLast? k] at h1
  have h2 : "_typeshed_".data.getLast? = some '_' := by decide
  rw [h2] at h1
  exact digitChar_ne_underscore (k % 10) (Option.some.inj h1).symm

theorem allocRun_eq (n : Nat) : ∀ c,
    allocRun n c = (List.range n).map (fun k => tmpName (c + k)) := by
  induction n with
  | zero => intro c; simp [allocRun]
  | succ n ih =>
    intro c
    simp only [allocRun, getTmpVarName]
    rw [ih (c + 1), List.range_succ_eq_map, List.map_cons, List.map_map]
    refine congrArg₂ List.cons (by rw [Nat.add_zero]) ?_
    refine List.map_congr_left ?_
    intro k _
    simp only [Function.comp_apply]
    congr 1
    omega

/-- A decorator list containing an `overload`-named `Name` node never lets
the decorator scan fall through to translation. -/
theorem scanDecorators_of_mem_overload {dl : List Expr}
    (h : Expr.name "overload" ∈ dl) : scanDecorators dl ≠ some false := by
  induction dl with
  | nil => cases h
  | cons d rest ih =>
    match d with
    | .name id =>
      by_cases hid : id == "overload"
      · simp [scanDecorators, hid]
      · have hmem : Expr.name "overload" ∈ rest := by
          rcases List.mem_cons.mp h with h1 | h1
          · exact absurd (congrArg (fun e => match e with
              | Expr.name i => i
              | _ => "") h1.symm) (by simpa using hid)
          · exact h1
        simp only [scanDecorators, hid, if_false]
        exact ih hmem
    | .subscript v s => simp [scanDecorators]
    | .binOp l r => simp [scanDecorators]
    | .constant v => simp [scanDecorators]
    | .tuple es => simp [scanDecorators]
    | .list es => simp [scanDecorators]
    | .attribute v a => simp [scanDecorators]
    | .call f => simp [scanDecorators]

/-- A non-`Name` decorator with only non-`overload` plain names before it
makes the decorator scan fail its `isinstance` assertion. -/
theorem scanDecorators_aborts (pre : List Expr) (d : Expr) (suf : List Expr)
    (hpre : ∀ x ∈ pre, ∃ id, x = Expr.name id ∧ id ≠ "overload")
    (hd : ∀ id, d ≠ Expr.name id) :
    scanDecorators (pre ++ d :: suf) = none := by
  induction pre with
  | nil =>
    match d, hd with
    | .subscript v s, _ => simp [scanDecorators]
    | .binOp l r, _ => simp [scanDecorators]
    | .constant v, _ => simp [scanDecorators]
    | .tuple es, _ => simp [scanDecorators]
    | .list es, _ => simp [scanDecorators]
    | .attribute v a, _ => simp [scanDecorators]
    | .call f, _ => simp [scanDecorators]
    | .name id, hd => exact absurd rfl (hd id)
  | cons x rest ih =>
    obtain ⟨id, hx, hid⟩ := hpre x (List.mem_cons_self x rest)
    subst hx
    have : (id == "overload") = false := by simpa using hid
    simp only [List.cons_append, scanDecorators, this, if_false]
    exact ih (fun y hy => hpre y (List.mem_cons_of_mem _ hy))

/-! ### Freshness-invariant toolkit -/

theorem GoodList.nil (c : Nat) : GoodList c c [] :=
  ⟨fun s hs => absurd hs (List.not_mem_nil s), List.Pairwise.nil⟩

theorem GoodList.mono {c1 c2 c0 c3 : Nat} {l : List String}
    (h : GoodList c1 c2 l) (h0 : c0 ≤ c1) (h3 : c2 ≤ c3) : GoodList c0 c3 l := by
  obtain ⟨hw, hp⟩ := h
  exact ⟨fun s hs k hk => by have := hw s hs k hk; omega, hp⟩

theorem GoodList.append {c0 c1 c2 : Nat} {l1 l2 : List String}
    (h1 : GoodList c0 c1 l1) (h2 : GoodList c1 c2 l2)
    (hle : c0 ≤ c1) (hle2 : c1 ≤ c2) : GoodList c0 c2 (l1 ++ l2) := by
  obtain ⟨hw1, hp1⟩ := h1
  obtain ⟨hw2, hp2⟩ := h2
  constructor
  · intro s hs k hk
    rcases List.mem_append.mp hs with h | h
    · have := hw1 s h k hk
      omega
    · have := hw2 s h k hk
      omega
  · refine List.pairwise_append.mpr ⟨hp1, hp2, ?_⟩
    intro a ha b hb k hak hbk
    have h1k := hw1 a ha k hak
    have h2k := hw2 b hb k hbk
    omega

theorem GoodList.cons_declared {c1 c2 : Nat} {l : List String} {s : String}
    (hs : ∀ k, s ≠ tmpName k) (h : GoodList c1 c2 l) : GoodList c1 c2 (s :: l) := by
  obtain ⟨hw, hp⟩ := h
  constructor
  · intro t ht k hk
    rcases List.mem_cons.mp ht with rfl | ht2
    · exact absurd hk (hs k)
    · exact hw t ht2 k hk
  · exact List.Pairwise.cons (fun t _ k hsk => absurd hsk (hs k)) hp

theorem GoodList.singleton_gen (c : Nat) : GoodList c (c + 1) [tmpName c] := by
  constructor
  · intro s hs k hk
    rw [List.mem_singleton.mp hs] at hk
    have := tmpName_inj hk
    omega
  · exact List.pairwise_singleton _ _

theorem GoodList.gen_cons {c c2 : Nat} {l : List String}
    (h : GoodList (c + 1) c2 l) (hle : c + 1 ≤ c2) : GoodList c c2 (tmpName c :: l) := by
  have happ := GoodList.append (GoodList.singleton_gen c) h (by omega) hle
  simpa using happ

theorem aMBL_nil : allMethodBodiesList [] = [] := by
  unfold allMethodBodiesList
  rfl

theorem aMBL_cons (x : Xml) (l : List Xml) :
    allMethodBodiesList (x :: l) = allMethodBodies x ++ allMethodBodiesList l := by
  conv_lhs => unfold allMethodBodiesList

theorem allMethodBodiesList_append (l1 l2 : List Xml) :
    allMethodBodiesList (l1 ++ l2) = allMethodBodiesList l1 ++ allMethodBodiesList l2 := by
  induction l1 with
  | nil => simp [aMBL_nil]
  | cons x rest ih =>
    rw [List.cons_append, aMBL_cons, aMBL_cons, ih, List.append_assoc]

theorem aMB_newTag (d cls : String) : allMethodBodies (newTag d cls) = [] := by
  unfold allMethodBodies
  simp [newTag, aMBL_nil]

theorem aMB_putfieldTag (f r v : String) : allMethodBodies (putfieldTag f r v) = [] := by
  unfold allMethodBodies
  simp [putfieldTag, aMBL_nil]

theorem aMB_returnTag (v : String) : allMethodBodies (returnTag v) = [] := by
  unfold allMethodBodies
  simp [returnTag, aMBL_nil]

theorem aMBL_gen_cons (d cls : String) (l : List Xml) :
    allMethodBodiesList (newTag d cls :: l) = allMethodBodiesList l := by
  rw [aMBL_cons, aMB_newTag, List.nil_append]

theorem aMBL_append_putfield (l : List Xml) (f r v : String) :
    allMethodBodiesList (l ++ [putfieldTag f r v]) = allMethodBodiesList l := by
  rw [allMethodBodiesList_append, aMBL_cons, aMB_putfieldTag, aMBL_nil]
  simp

theorem aMBL_append_return (l : List Xml) (v : String) :
    allMethodBodiesList (l ++ [returnTag v]) = allMethodBodiesList l := by
  rw [allMethodBodiesList_append, aMBL_cons, aMB_returnTag, aMBL_nil]
  simp

theorem newDefs_append (l1 l2 : List Xml) :
    newDefs (l1 ++ l2) = newDefs l1 ++ newDefs l2 := by
  simp [newDefs]

theorem newDefs_newTag_cons (d cls : String) (l : List Xml) :
    newDefs (newTag d cls :: l) = d :: newDefs l := by
  simp [newDefs, newTag, List.filterMap_cons, List.lookup]

theorem newDefs_putfield_cons (f r v : String) (l : List Xml) :
    newDefs (putfieldTag f r v :: l) = newDefs l := by
  simp [newDefs, putfieldTag, List.filterMap_cons]

theorem newDefs_return_cons (v : String) (l : List Xml) :
    newDefs (returnTag v :: l) = newDefs l := by
  simp [newDefs, returnTag, List.filterMap_cons]

theorem newDefs_append_putfield (l : List Xml) (f r v : String) :
    newDefs (l ++ [putfieldTag f r v]) = newDefs l := by
  rw [newDefs_append, newDefs_putfield_cons]
  simp [newDefs]

theorem newDefs_append_return (l : List Xml) (v : String) :
    newDefs (l ++ [returnTag v]) = newDefs l := by
  rw [newDefs_append, newDefs_return_cons]
  simp [newDefs]

mutual

/-- Freshness invariant of `_convert_expr`: the counter strictly grows,
every construction target it appends is a generated name with index in
the consumed counter window and no index repeats, and the appended
instruction elements contain no method bodies. -/
theorem convertExpr_good (e : Option Expr) (p : Option String) (i c : Nat) :
    c + 1 ≤ (convertExpr e p i c).val.counter ∧
    GoodList c (convertExpr e p i c).val.counter
      (newDefs (convertExpr e p i c).val.instrs) ∧
    allMethodBodiesList (convertExpr e p i c).val.instrs = [] := by
  match e with
  | some (.tuple elts) =>
    have ih := convertExprList_good elts (tmpName c) 0 (c + 1)
    unfold convertExpr
    dsimp only []
    rcases hres : convertExprList elts (tmpName c) 0 (c + 1) with ⟨c2, l⟩ | ⟨c2, l⟩ <;>
      rw [hres] at ih <;> dsimp only [Res.val] at ih ⊢
    · obtain ⟨a1, b1, d1⟩ := ih
      rcases p with _ | pv <;> dsimp only [Res.val]
      · exact ⟨a1, by rw [newDefs_newTag_cons]; exact b1.gen_cons (by omega), by rw [aMBL_gen_cons]; exact d1⟩
      · refine ⟨a1, ?_, ?_⟩
        · rw [newDefs_append_putfield, newDefs_newTag_cons]
          exact b1.gen_cons (by omega)
        · rw [aMBL_append_putfield, aMBL_gen_cons]
          exact d1
    · obtain ⟨a1, b1, d1⟩ := ih
      exact ⟨a1, by rw [newDefs_newTag_cons]; exact b1.gen_cons (by omega), by rw [aMBL_gen_cons]; exact d1⟩
  | some (.list elts) =>
    have ih := convertExprList_good elts (tmpName c) 0 (c + 1)
    unfold convertExpr
    dsimp only []
    rcases hres : convertExprList elts (tmpName c) 0 (c + 1) with ⟨c2, l⟩ | ⟨c2, l⟩ <;>
      rw [hres] at ih <;> dsimp only [Res.val] at ih ⊢
    · obtain ⟨a1, b1, d1⟩ := ih
      rcases p with _ | pv <;> dsimp only [Res.val]
      · exact ⟨a1, by rw [newDefs_newTag_cons]; exact b1.gen_cons (by omega), by rw [aMBL_gen_cons]; exact d1⟩
      · refine ⟨a1, ?_, ?_⟩
        · rw [newDefs_append_putfield, newDefs_newTag_cons]
          exact b1.gen_cons (by omega)
        · rw [aMBL_append_putfield, aMBL_gen_cons]
          exact d1
    · obtain ⟨a1, b1, d1⟩ := ih
      exact ⟨a1, by rw [newDefs_newTag_cons]; exact b1.gen_cons (by omega), by rw [aMBL_gen_cons]; exact d1⟩
  | some (.subscript v (.tuple elts)) =>
    have ih := convertExprList_good elts (tmpName c) 0 (c + 1)
    unfold convertExpr
    dsimp only []
    rcases hty : getExprType (some v) with _ | t <;> dsimp only [Res.val]
    · exact ⟨Nat.le_refl _, (GoodList.nil c).mono (Nat.le_refl c) (by omega), aMBL_nil⟩
    · rcases hres : convertExprList elts (tmpName c) 0 (c + 1) with ⟨c2, l⟩ | ⟨c2, l⟩ <;>
        rw [hres] at ih <;> dsimp only [Res.val] at ih ⊢
      · obtain ⟨a1, b1, d1⟩ := ih
        rcases p with _ | pv <;> dsimp only [Res.val]
        · exact ⟨a1, by rw [newDefs_newTag_cons]; exact b1.gen_cons (by omega), by rw [aMBL_gen_cons]; exact d1⟩
        · refine ⟨a1, ?_, ?_⟩
          · rw [newDefs_append_putfield, newDefs_newTag_cons]
            exact b1.gen_cons (by omega)
          · rw [aMBL_append_putfield, aMBL_gen_cons]
            exact d1
      · obtain ⟨a1, b1, d1⟩ := ih
        exact ⟨a1, by rw [newDefs_newTag_cons]; exact b1.gen_cons (by omega), by rw [aMBL_gen_cons]; exact d1⟩
  | some (.subscript v (.list elts)) =>
    have ih := convertExprList_good elts (tmpName c) 0 (c + 1)
    unfold convertExpr
    dsimp only []
    rcases hty : getExprType (some v) with _ | t <;> dsimp only [Res.val]
    · exact ⟨Nat.le_refl _, (GoodList.nil c).mono (Nat.le_refl c) (by omega), aMBL_nil⟩
    · rcases hres : convertExprList elts (tmpName c) 0 (c + 1) with ⟨c2, l⟩ | ⟨c2, l⟩ <;>
        rw [hres] at ih <;> dsimp only [Res.val] at ih ⊢
      · obtain ⟨a1, b1, d1⟩ := ih
        rcases p with _ | pv <;> dsimp only [Res.val]
        · exact ⟨a1, by rw [newDefs_newTag_cons]; exact b1.gen_cons (by omega), by rw [aMBL_gen_cons]; exact d1⟩
        · refine ⟨a1, ?_, ?_⟩
          · rw [newDefs_append_putfield, newDefs_newTag_cons]
            exact b1.gen_cons (by omega)
          · rw [aMBL_append_putfield, aMBL_gen_cons]
            exact d1
      · obtain ⟨a1, b1, d1⟩ := ih
        exact ⟨a1, by rw [newDefs_newTag_cons]; exact b1.gen_cons (by omega), by rw [aMBL_gen_cons]; exact d1⟩
  | some (.subscript v (.name id)) =>
    have ih := convertExpr_good (some (.name id)) (some (tmpName c)) 0 (c + 1)
    unfold convertExpr
    dsimp only []
    rcases hty : getExprType (some v) with _ | t <;> dsimp only [Res.val]
    · exact ⟨Nat.le_refl _, (GoodList.nil c).mono (Nat.le_refl c) (by omega), aMBL_nil⟩
    · rcases hres : convertExpr (some (.name id)) (some (tmpName c)) 0 (c + 1)
          with ⟨c2, l, nm⟩ | ⟨c2, l, nm⟩ <;>
        rw [hres] at ih <;> dsimp only [Res.val] at ih ⊢
      · obtain ⟨a1, b1, d1⟩ := ih
        rcases p with _ | pv <;> dsimp only [Res.val]
        · exact ⟨by omega, by rw [newDefs_newTag_cons]; exact b1.gen_cons (by omega), by rw [aMBL_gen_cons]; exact d1⟩
        · refine ⟨by omega, ?_, ?_⟩
          · rw [newDefs_append_putfield, newDefs_newTag_cons]
            exact b1.gen_cons (by omega)
          · rw [aMBL_append_putfield, aMBL_gen_cons]
            exact d1
      · obtain ⟨a1, b1, d1⟩ := ih
        exact ⟨by omega, by rw [newDefs_newTag_cons]; exact b1.gen_cons (by omega), by rw [aMBL_gen_cons]; exact d1⟩
  | some (.subscript v (.subscript a b)) =>
    have ih := convertExpr_good (some (.subscript a b)) (some (tmpName c)) 0 (c + 1)
    unfold convertExpr
    dsimp only []
    rcases hty : getExprType (some v) with _ | t <;> dsimp only [Res.val]
    · exact ⟨Nat.le_refl _, (GoodList.nil c).mono (Nat.le_refl c) (by omega), aMBL_nil⟩
    · rcases hres : convertExpr (some (.subscript a b)) (some (tmpName c)) 0 (c + 1)
          with ⟨c2, l, nm⟩ | ⟨c2, l, nm⟩ <;>
        rw [hres] at ih <;> dsimp only [Res.val] at ih ⊢
      · obtain ⟨a1, b1, d1⟩ := ih
        rcases p with _ | pv <;> dsimp only [Res.val]
        · exact ⟨by omega, by rw [newDefs_newTag_cons]; exact b1.gen_cons (by omega), by rw [aMBL_gen_cons]; exact d1⟩
        · refine ⟨by omega, ?_, ?_⟩
          · rw [newDefs_append_putfield, newDefs_newTag_cons]
            exact b1.gen_cons (by omega)
          · rw [aMBL_append_putfield, aMBL_gen_cons]
            exact d1
      · obtain ⟨a1, b1, d1⟩ := ih
        exact ⟨by omega, by rw [newDefs_newTag_cons]; exact b1.gen_cons (by omega), by rw [aMBL_gen_cons]; exact d1⟩
  | some (.subscript v (.binOp a b)) =>
    have ih := convertExpr_good (some (.binOp a b)) (some (tmpName c)) 0 (c + 1)
    unfold convertExpr
    dsimp only []
    rcases hty : getExprType (some v) with _ | t <;> dsimp only [Res.val]
    · exact ⟨Nat.le_refl _, (GoodList.nil c).mono (Nat.le_refl c) (by omega), aMBL_nil⟩
    · rcases hres : convertExpr (some (.binOp a b)) (some (tmpName c)) 0 (c + 1)
          with ⟨c2, l, nm⟩ | ⟨c2, l, nm⟩ <;>
        rw [hres] at ih <;> dsimp only [Res.val] at ih ⊢
      · obtain ⟨a1, b1, d1⟩ := ih
        rcases p with _ | pv <;> dsimp only [Res.val]
        · exact ⟨by omega, by rw [newDefs_newTag_cons]; exact b1.gen_cons (by omega), by rw [aMBL_gen_cons]; exact d1⟩
        · refine ⟨by omega, ?_, ?_⟩
          · rw [newDefs_append_putfield, newDefs_newTag_cons]
            exact b1.gen_cons (by omega)
          · rw [aMBL_append_putfield, aMBL_gen_cons]
            exact d1
      · obtain ⟨a1, b1, d1⟩ := ih
        exact ⟨by omega, by rw [newDefs_newTag_cons]; exact b1.gen_cons (by omega), by rw [aMBL_gen_cons]; exact d1⟩
  | some (.subscript v (.constant cv)) =>
    have ih := convertExpr_good (some (.constant cv)) (some (tmpName c)) 0 (c + 1)
    unfold convertExpr
    dsimp only []
    rcases hty : getExprType (some v) with _ | t <;> dsimp only [Res.val]
    · exact ⟨Nat.le_refl _, (GoodList.nil c).mono (Nat.le_refl c) (by omega), aMBL_nil⟩
    · rcases hres : convertExpr (some (.constant cv)) (some (tmpName c)) 0 (c + 1)
          with ⟨c2, l, nm⟩ | ⟨c2, l, nm⟩ <;>
        rw [hres] at ih <;> dsimp only [Res.val] at ih ⊢
      · obtain ⟨a1, b1, d1⟩ := ih
        rcases p with _ | pv <;> dsimp only [Res.val]
        · exact ⟨by omega, by rw [newDefs_newTag_cons]; exact b1.gen_cons (by omega), by rw [aMBL_gen_cons]; exact d1⟩
        · refine ⟨by omega, ?_, ?_⟩
          · rw [newDefs_append_putfield, newDefs_newTag_cons]
            exact b1.gen_cons (by omega)
          · rw [aMBL_append_putfield, aMBL_gen_cons]
            exact d1
      · obtain ⟨a1, b1, d1⟩ := ih
        exact ⟨by omega, by rw [newDefs_newTag_cons]; exact b1.gen_cons (by omega), by rw [aMBL_gen_cons]; exact d1⟩
  | some (.subscript v (.attribute a a2)) =>
    have ih := convertExpr_good (some (.attribute a a2)) (some (tmpName c)) 0 (c + 1)
    unfold convertExpr
    dsimp only []
    rcases hty : getExprType (some v) with _ | t <;> dsimp only [Res.val]
    · exact ⟨Nat.le_refl _, (GoodList.nil c).mono (Nat.le_refl c) (by omega), aMBL_nil⟩
    · rcases hres : convertExpr (some (.attribute a a2)) (some (tmpName c)) 0 (c + 1)
          with ⟨c2, l, nm⟩ | ⟨c2, l, nm⟩ <;>
        rw [hres] at ih <;> dsimp only [Res.val] at ih ⊢
      · obtain ⟨a1, b1, d1⟩ := ih
        rcases p with _ | pv <;> dsimp only [Res.val]
        · exact ⟨by omega, by rw [newDefs_newTag_cons]; exact b1.gen_cons (by omega), by rw [aMBL_gen_cons]; exact d1⟩
        · refine ⟨by omega, ?_, ?_⟩
          · rw [newDefs_append_putfield, newDefs_newTag_cons]
            exact b1.gen_cons (by omega)
          · rw [aMBL_append_putfield, aMBL_gen_cons]
            exact d1
      · obtain ⟨a1, b1, d1⟩ := ih
        exact ⟨by omega, by rw [newDefs_newTag_cons]; exact b1.gen_cons (by omega), by rw [aMBL_gen_cons]; exact d1⟩
  | some (.subscript v (.call f)) =>
    have ih := convertExpr_good (some (.call f)) (some (tmpName c)) 0 (c + 1)
    unfold convertExpr
    dsimp only []
    rcases hty : getExprType (some v) with _ | t <;> dsimp only [Res.val]
    · exact ⟨Nat.le_refl _, (GoodList.nil c).mono (Nat.le_refl c) (by omega), aMBL_nil⟩
    · rcases hres : convertExpr (some (.call f)) (some (tmpName c)) 0 (c + 1)
          with ⟨c2, l, nm⟩ | ⟨c2, l, nm⟩ <;>
        rw [hres] at ih <;> dsimp only [Res.val] at ih ⊢
      · obtain ⟨a1, b1, d1⟩ := ih
        rcases p with _ | pv <;> dsimp only [Res.val]
        · exact ⟨by omega, by rw [newDefs_newTag_cons]; exact b1.gen_cons (by omega), by rw [aMBL_gen_cons]; exact d1⟩
        · refine ⟨by omega, ?_, ?_⟩
          · rw [newDefs_append_putfield, newDefs_newTag_cons]
            exact b1.gen_cons (by omega)
          · rw [aMBL_append_putfield, aMBL_gen_cons]
            exact d1
      · obtain ⟨a1, b1, d1⟩ := ih
        exact ⟨by omega, by rw [newDefs_newTag_cons]; exact b1.gen_cons (by omega), by rw [aMBL_gen_cons]; exact d1⟩
  | none =>
    unfold convertExpr
    dsimp only []
    rcases hty : getExprType none with _ | t <;> dsimp only [Res.val]
    · exact ⟨Nat.le_refl _, (GoodList.nil c).mono (Nat.le_refl c) (by omega), aMBL_nil⟩
    · rcases p with _ | pv <;> dsimp only [Res.val]
      · exact ⟨Nat.le_refl _, by rw [newDefs_newTag_cons]; exact (GoodList.nil (c + 1)).gen_cons (Nat.le_refl _),
          by rw [aMBL_gen_cons]; exact aMBL_nil⟩
      · refine ⟨Nat.le_refl _, ?_, ?_⟩
        · rw [newDefs_append_putfield, newDefs_newTag_cons]
          exact (GoodList.nil (c + 1)).gen_cons (Nat.le_refl _)
        · rw [aMBL_append_putfield, aMBL_gen_cons]
          exact aMBL_nil
  | some (.name id) =>
    unfold convertExpr
    dsimp only []
    rcases hty : getExprType (some (.name id)) with _ | t <;> dsimp only [Res.val]
    · exact ⟨Nat.le_refl _, (GoodList.nil c).mono (Nat.le_refl c) (by omega), aMBL_nil⟩
    · rcases p with _ | pv <;> dsimp only [Res.val]
      · exact ⟨Nat.le_refl _, by rw [newDefs_newTag_cons]; exact (GoodList.nil (c + 1)).gen_cons (Nat.le_refl _),
          by rw [aMBL_gen_cons]; exact aMBL_nil⟩
      · refine ⟨Nat.le_refl _, ?_, ?_⟩
        · rw [newDefs_append_putfield, newDefs_newTag_cons]
          exact (GoodList.nil (c + 1)).gen_cons (Nat.le_refl _)
        · rw [aMBL_append_putfield, aMBL_gen_cons]
          exact aMBL_nil
  | some (.binOp a b) =>
    unfold convertExpr
    dsimp only []
    rcases hty : getExprType (some (.binOp a b)) with _ | t <;> dsimp only [Res.val]
    · exact ⟨Nat.le_refl _, (GoodList.nil c).mono (Nat.le_refl c) (by omega), aMBL_nil⟩
    · rcases p with _ | pv <;> dsimp only [Res.val]
      · exact ⟨Nat.le_refl _, by rw [newDefs_newTag_cons]; exact (GoodList.nil (c + 1)).gen_cons (Nat.le_refl _),
          by rw [aMBL_gen_cons]; exact aMBL_nil⟩
      · refine ⟨Nat.le_refl _, ?_, ?_⟩
        · rw [newDefs_append_putfield, newDefs_newTag_cons]
          exact (GoodList.nil (c + 1)).gen_cons (Nat.le_refl _)
        · rw [aMBL_append_putfield, aMBL_gen_cons]
          exact aMBL_nil
  | some (.constant cv) =>
    unfold convertExpr
    dsimp only []
    rcases hty : getExprType (some (.constant cv)) with _ | t <;> dsimp only [Res.val]
    · exact ⟨Nat.le_refl _, (GoodList.nil c).mono (Nat.le_refl c) (by omega), aMBL_nil⟩
    · rcases p with _ | pv <;> dsimp only [Res.val]
      · exact ⟨Nat.le_refl _, by rw [newDefs_newTag_cons]; exact (GoodList.nil (c + 1)).gen_cons (Nat.le_refl _),
          by rw [aMBL_gen_cons]; exact aMBL_nil⟩
      · refine ⟨Nat.le_refl _, ?_, ?_⟩
        · rw [newDefs_append_putfield, newDefs_newTag_cons]
          exact (GoodList.nil (c + 1)).gen_cons (Nat.le_refl _)
        · rw [aMBL_append_putfield, aMBL_gen_cons]
          exact aMBL_nil
  | some (.attribute a a2) =>
    unfold convertExpr
    dsimp only []
    rcases hty : getExprType (some (.attribute a a2)) with _ | t <;> dsimp only [Res.val]
    · exact ⟨Nat.le_refl _, (GoodList.nil c).mono (Nat.le_refl c) (by omega), aMBL_nil⟩
    · rcases p with _ | pv <;> dsimp only [Res.val]
      · exact ⟨Nat.le_refl _, by rw [newDefs_newTag_cons]; exact (GoodList.nil (c + 1)).gen_cons (Nat.le_refl _),
          by rw [aMBL_gen_cons]; exact aMBL_nil⟩
      · refine ⟨Nat.le_refl _, ?_, ?_⟩
        · rw [newDefs_append_putfield, newDefs_newTag_cons]
          exact (GoodList.nil (c + 1)).gen_cons (Nat.le_refl _)
        · rw [aMBL_append_putfield, aMBL_gen_cons]
          exact aMBL_nil
  | some (.call f) =>
    unfold convertExpr
    dsimp only []
    rcases hty : getExprType (some (.call f)) with _ | t <;> dsimp only [Res.val]
    · exact ⟨Nat.le_refl _, (GoodList.nil c).mono (Nat.le_refl c) (by omega), aMBL_nil⟩
    · rcases p with _ | pv <;> dsimp only [Res.val]
      · exact ⟨Nat.le_refl _, by rw [newDefs_newTag_cons]; exact (GoodList.nil (c + 1)).gen_cons (Nat.le_refl _),
          by rw [aMBL_gen_cons]; exact aMBL_nil⟩
      · refine ⟨Nat.le_refl _, ?_, ?_⟩
        · rw [newDefs_append_putfield, newDefs_newTag_cons]
          exact (GoodList.nil (c + 1)).gen_cons (Nat.le_refl _)
        · rw [aMBL_append_putfield, aMBL_gen_cons]
          exact aMBL_nil
termination_by (sizeOf e, 0)
decreasing_by all_goals (simp_wf <;> omega)

/-- Freshness invariant of the element loops of `_convert_expr`. -/
theorem convertExprList_good (elts : List Expr) (pv : String) (i c : Nat) :
    c ≤ (convertExprList elts pv i c).val.1 ∧
    GoodList c (convertExprList elts pv i c).val.1
      (newDefs (convertExprList elts pv i c).val.2) ∧
    allMethodBodiesList (convertExprList elts pv i c).val.2 = [] := by
  match elts with
  | [] =>
    unfold convertExprList
    dsimp only [Res.val]
    exact ⟨Nat.le_refl _, GoodList.nil c, aMBL_nil⟩
  | ehead :: rest =>
    have ih1 := convertExpr_good (some ehead) (some pv) i c
    unfold convertExprList
    rcases hres : convertExpr (some ehead) (some pv) i c
        with ⟨c1, l1, nm⟩ | ⟨c1, l1, nm⟩ <;>
      rw [hres] at ih1 <;> dsimp only [Res.val] at ih1 ⊢
    · obtain ⟨a1, b1, d1⟩ := ih1
      have ih2 := convertExprList_good rest pv (i + 1) c1
      rcases hres2 : convertExprList rest pv (i + 1) c1 with ⟨c2, l2⟩ | ⟨c2, l2⟩ <;>
        rw [hres2] at ih2 <;> dsimp only [Res.val] at ih2 ⊢ <;>
        obtain ⟨a2, b2, d2⟩ := ih2 <;>
        exact ⟨by omega, by rw [newDefs_append]; exact b1.append b2 (by omega) (by omega),
          by rw [allMethodBodiesList_append, d1, d2]; rfl⟩
    · obtain ⟨a1, b1, d1⟩ := ih1
      exact ⟨by omega, b1, d1⟩
termination_by (sizeOf elts, 1)
decreasing_by all_goals (simp_wf <;> omega)

end

/-- `allMethodBodies` of an arbitrary element, unfolded. -/
theorem aMB_elem (t : String) (attrs : List (String × String)) (ch : List Xml) :
    allMethodBodies (Xml.elem t attrs ch) =
      (if t == "method" then [ch] else []) ++ allMethodBodiesList ch := by
  unfold allMethodBodies
  rfl

theorem aMBL_mem_three {mb : List Xml} {f cl ld : List Xml} :
    mb ∈ allMethodBodiesList (f ++ cl ++ ld) ↔
      mb ∈ allMethodBodiesList f ∨ mb ∈ allMethodBodiesList cl ∨
        mb ∈ allMethodBodiesList ld := by
  rw [allMethodBodiesList_append, allMethodBodiesList_append]
  simp [List.mem_append, or_assoc]

theorem GoodGOut.empty (c : Nat) : GoodGOut c ⟨c, [], [], [], []⟩ := by
  refine ⟨Nat.le_refl _, GoodList.nil c, aMBL_nil, ?_⟩
  intro mb hmb
  simp [aMBL_nil] at hmb

/-- The pair of declared-name instructions (`new` + `putfield`) emitted
for a function, class, or annotated variable has a `GoodList` name list
over any window. -/
theorem GoodList.declared_pair (dn : String) (cls f r v : String) {c c2 : Nat}
    (hle : c ≤ c2) :
    GoodList c c2 (newDefs [newTag (dn ++ "_typeshed_") cls, putfieldTag f r v]) := by
  rw [newDefs_newTag_cons, newDefs_putfield_cons]
  exact GoodList.cons_declared (declared_ne_tmpName dn)
    ((GoodList.nil c).mono (Nat.le_refl c) hle)

theorem aMBL_declared_pair (dn cls f r v : String) :
    allMethodBodiesList [newTag dn cls, putfieldTag f r v] = [] := by
  rw [aMBL_cons, aMB_newTag, aMBL_cons, aMB_putfieldTag, aMBL_nil]
  rfl

/-- Freshness invariant of `convert_return`. -/
theorem convertReturn_good (ret : Option Expr) (c : Nat) :
    c + 1 ≤ (convertReturn ret c).val.1 ∧
    GoodList c (convertReturn ret c).val.1 (newDefs (convertReturn ret c).val.2) ∧
    allMethodBodiesList (convertReturn ret c).val.2 = [] := by
  have ih := convertExpr_good ret none 0 c
  unfold convertReturn
  rcases hres : convertExpr ret none 0 c with ⟨c1, l1, nm⟩ | ⟨c1, l1, nm⟩ <;>
    rw [hres] at ih <;> dsimp only [Res.val] at ih ⊢
  · obtain ⟨a1, b1, d1⟩ := ih
    exact ⟨a1, by rw [newDefs_append_return]; exact b1,
      by rw [aMBL_append_return]; exact d1⟩
  · exact ih

mutual

/-- Freshness invariant of `convert_global`: whatever the outcome, the
counter does not decrease, the construction targets appended to the
current method body form a `GoodList`, and so do those of every method
body inside the appended package and class elements. -/
theorem convertGlobal_good (s : Stmt)
    (pkgName returnObjName funcPkgName classPkgName : String) (c : Nat) :
    GoodGOut c (convertGlobal pkgName s returnObjName funcPkgName classPkgName c).val := by
  match s with
  | .functionDef fn args dl ret =>
    unfold convertGlobal
    rcases hscan : scanDecorators dl with _ | b
    · exact GoodGOut.empty c
    · match b with
      | true => exact GoodGOut.empty c
      | false =>
        have hr := convertReturn_good ret c
        rcases hres : convertReturn ret c with ⟨c2, body⟩ | ⟨c2, body⟩ <;>
          rw [hres] at hr <;> dsimp only [Res.val] at hr ⊢ <;>
          obtain ⟨a1, b1, d1⟩ := hr <;>
          dsimp only [GoodGOut] <;>
          refine ⟨by omega, GoodList.declared_pair fn _ _ _ _ (by omega),
            aMBL_declared_pair _ _ _ _ _, ?_⟩ <;>
          intro mb hmb <;>
          simp only [List.append_nil] at hmb <;>
          simp [aMBL_cons, aMB_elem, aMBL_nil, d1] at hmb <;>
          rw [hmb] <;>
          exact b1
  | .classDef className body =>
    unfold convertGlobal
    dsimp only []
    have ih := convertGlobalList_good body pkgName (className ++ "_typeshed_")
      (pkgName ++ "/" ++ className) classPkgName c
    rcases hres : convertGlobalList pkgName body (className ++ "_typeshed_")
        (pkgName ++ "/" ++ className) classPkgName c with g0 | g0 <;>
      rw [hres] at ih <;> dsimp only [Res.val] at ih ⊢ <;>
      obtain ⟨a1, b1, d1, e1⟩ := ih
    · dsimp only [GoodGOut]
      refine ⟨by omega, GoodList.declared_pair className _ _ _ _ (by omega),
        aMBL_declared_pair _ _ _ _ _, ?_⟩
      intro mb hmb
      have hdob : allMethodBodiesList
          (newTag (className ++ "_typeshed_")
              ("L" ++ classPkgName ++ "/" ++ className) ::
            (g0.instrs ++ [returnTag (className ++ "_typeshed_")])) = [] := by
        rw [aMBL_gen_cons, aMBL_append_return, d1]
      rw [List.nil_append, allMethodBodiesList_append, aMBL_cons, aMBL_cons,
        aMB_elem, aMB_elem, aMBL_cons, aMB_elem, aMBL_nil, hdob] at hmb
      simp at hmb
      rcases hmb with h | h | h | h
      · subst h
        rw [newDefs_newTag_cons, newDefs_append_return]
        exact GoodList.cons_declared (declared_ne_tmpName className) b1
      · exact e1 mb (aMBL_mem_three.mpr (Or.inr (Or.inl h)))
      · exact e1 mb (aMBL_mem_three.mpr (Or.inl h))
      · exact e1 mb (aMBL_mem_three.mpr (Or.inr (Or.inr h)))
    · dsimp only [GoodGOut]
      refine ⟨by omega, GoodList.declared_pair className _ _ _ _ (by omega),
        aMBL_declared_pair _ _ _ _ _, ?_⟩
      intro mb hmb
      have hdob : allMethodBodiesList
          (newTag (className ++ "_typeshed_")
              ("L" ++ classPkgName ++ "/" ++ className) :: g0.instrs) = [] := by
        rw [aMBL_gen_cons, d1]
      rw [List.nil_append, allMethodBodiesList_append, aMBL_cons, aMBL_cons,
        aMB_elem, aMB_elem, aMBL_cons, aMB_elem, aMBL_nil, hdob] at hmb
      simp at hmb
      rcases hmb with h | h | h | h
      · subst h
        rw [newDefs_newTag_cons]
        exact GoodList.cons_declared (declared_ne_tmpName className) b1
      · exact e1 mb (aMBL_mem_three.mpr (Or.inr (Or.inl h)))
      · exact e1 mb (aMBL_mem_three.mpr (Or.inl h))
      · exact e1 mb (aMBL_mem_three.mpr (Or.inr (Or.inr h)))
  | .assign =>
    unfold convertGlobal
    exact GoodGOut.empty c
  | .annAssign target ann =>
    unfold convertGlobal
    dsimp only []
    rcases target with id | _ | _ | _ | _ | _ | _ | _
    case name =>
      dsimp only []
      rcases hty : getExprType (some ann) with _ | t <;> dsimp only [Res.val]
      · exact GoodGOut.empty c
      · dsimp only [GoodGOut]
        refine ⟨Nat.le_refl _, ?_, aMBL_declared_pair _ _ _ _ _, ?_⟩
        · exact GoodList.declared_pair id _ _ _ _ (Nat.le_refl _)
        · intro mb hmb
          simp [aMBL_nil] at hmb
    all_goals exact GoodGOut.empty c
  | .importStmt =>
    unfold convertGlobal
    exact GoodGOut.empty c
  | .importFrom =>
    unfold convertGlobal
    exact GoodGOut.empty c
  | .ifStmt =>
    unfold convertGlobal
    exact GoodGOut.empty c
  | .exprStmt =>
    unfold convertGlobal
    exact GoodGOut.empty c
  | .forStmt =>
    unfold convertGlobal
    exact GoodGOut.empty c
  | .withStmt =>
    unfold convertGlobal
    exact GoodGOut.empty c
termination_by (sizeOf s, 0)
decreasing_by all_goals (simp_wf <;> omega)

/-- Freshness invariant of the statement loops. -/
theorem convertGlobalList_good (l : List Stmt)
    (pkgName returnObjName funcPkgName classPkgName : String) (c : Nat) :
    GoodGOut c (convertGlobalList pkgName l returnObjName funcPkgName classPkgName c).val := by
  match l with
  | [] =>
    unfold convertGlobalList
    exact GoodGOut.empty c
  | t :: rest =>
    have ih1 := convertGlobal_good t pkgName returnObjName funcPkgName classPkgName c
    unfold convertGlobalList
    rcases hres : convertGlobal pkgName t returnObjName funcPkgName classPkgName c
        with g1 | g1 <;> rw [hres] at ih1 <;> dsimp only [Res.val] at ih1 ⊢
    · obtain ⟨a1, b1, d1, e1⟩ := ih1
      have ih2 := convertGlobalList_good rest pkgName returnObjName funcPkgName
        classPkgName g1.counter
      rcases hres2 : convertGlobalList pkgName rest returnObjName funcPkgName
          classPkgName g1.counter with g2 | g2 <;>
        rw [hres2] at ih2 <;> dsimp only [Res.val] at ih2 ⊢ <;>
        obtain ⟨a2, b2, d2, e2⟩ := ih2 <;>
        dsimp only [GoodGOut, mergeG] <;>
        refine ⟨by omega, ?_, ?_, ?_⟩
      · rw [newDefs_append]
        exact b1.append b2 (by omega) (by omega)
      · rw [allMethodBodiesList_append, d1, d2]
        rfl
      · intro mb hmb
        rw [aMBL_mem_three] at hmb
        rw [allMethodBodiesList_append, allMethodBodiesList_append,
          allMethodBodiesList_append] at hmb
        simp only [List.mem_append] at hmb
        rcases hmb with (h | h) | (h | h) | (h | h)
        · exact (e1 mb (aMBL_mem_three.mpr (Or.inl h))).mono (Nat.le_refl c) (by omega)
        · exact (e2 mb (aMBL_mem_three.mpr (Or.inl h))).mono (by omega) (Nat.le_refl _)
        · exact (e1 mb (aMBL_mem_three.mpr (Or.inr (Or.inl h)))).mono (Nat.le_refl c) (by omega)
        · exact (e2 mb (aMBL_mem_three.mpr (Or.inr (Or.inl h)))).mono (by omega) (Nat.le_refl _)
        · exact (e1 mb (aMBL_mem_three.mpr (Or.inr (Or.inr h)))).mono (Nat.le_refl c) (by omega)
        · exact (e2 mb (aMBL_mem_three.mpr (Or.inr (Or.inr h)))).mono (by omega) (Nat.le_refl _)
      · rw [newDefs_append]
        exact b1.append b2 (by omega) (by omega)
      · rw [allMethodBodiesList_append, d1, d2]
        rfl
      · intro mb hmb
        rw [aMBL_mem_three] at hmb
        rw [allMethodBodiesList_append, allMethodBodiesList_append,
          allMethodBodiesList_append] at hmb
        simp only [List.mem_append] at hmb
        rcases hmb with (h | h) | (h | h) | (h | h)
        · exact (e1 mb (aMBL_mem_three.mpr (Or.inl h))).mono (Nat.le_refl c) (by omega)
        · exact (e2 mb (aMBL_mem_three.mpr (Or.inl h))).mono (by omega) (Nat.le_refl _)
        · exact (e1 mb (aMBL_mem_three.mpr (Or.inr (Or.inl h)))).mono (Nat.le_refl c) (by omega)
        · exact (e2 mb (aMBL_mem_three.mpr (Or.inr (Or.inl h)))).mono (by omega) (Nat.le_refl _)
        · exact (e1 mb (aMBL_mem_three.mpr (Or.inr (Or.inr h)))).mono (Nat.le_refl c) (by omega)
        · exact (e2 mb (aMBL_mem_three.mpr (Or.inr (Or.inr h)))).mono (by omega) (Nat.le_refl _)
    · exact ih1
termination_by (sizeOf l, 1)
decreasing_by all_goals (simp_wf <;> omega)

end

/-! ### Helper lemmas about whole-conversion outputs -/

mutual

/-- On success, `convert_global` appends to the classloader exactly one
package per class definition it converted, in preorder, each tagged
`package` and named `self.package_name ++ "/" ++ <class's own name>`. -/
theorem loaderAdds_stmt (s : Stmt)
    (pkgName returnObjName funcPkgName classPkgName : String) (c : Nat) (g : GOut)
    (h : convertGlobal pkgName s returnObjName funcPkgName classPkgName c = .ok g) :
    g.loaderAdds.map (fun x => (x.tag, nameAttr x)) =
      (classNamesPre s).map (fun n => ("package", some (pkgName ++ "/" ++ n))) := by
  match s with
  | .functionDef fn args dl ret =>
    unfold convertGlobal at h
    split at h
    · simp at h
    · injection h with h2
      subst h2
      simp [classNamesPre]
    · split at h
      · injection h with h2
        subst h2
        simp [classNamesPre]
      · simp at h
  | .classDef className body =>
    unfold convertGlobal at h
    dsimp only [] at h
    split at h
    next g0 heq =>
      injection h with h2
      subst h2
      have ih := loaderAdds_list body pkgName (className ++ "_typeshed_")
        (pkgName ++ "/" ++ className) classPkgName c g0 heq
      simp only [classNamesPre, List.map_cons]
      refine congrArg₂ List.cons ?_ ih
      simp [Xml.tag, nameAttr, Xml.attrList, List.lookup]
    next g0 heq => simp at h
  | .assign =>
    unfold convertGlobal at h
    injection h with h2
    subst h2
    simp [classNamesPre]
  | .annAssign target ann =>
    unfold convertGlobal at h
    split at h
    · split at h
      · simp at h
      · injection h with h2
        subst h2
        simp [classNamesPre]
    · simp at h
  | .importStmt =>
    unfold convertGlobal at h
    injection h with h2
    subst h2
    simp [classNamesPre]
  | .importFrom =>
    unfold convertGlobal at h
    injection h with h2
    subst h2
    simp [classNamesPre]
  | .ifStmt =>
    unfold convertGlobal at h
    injection h with h2
    subst h2
    simp [classNamesPre]
  | .exprStmt =>
    unfold convertGlobal at h
    injection h with h2
    subst h2
    simp [classNamesPre]
  | .forStmt =>
    unfold convertGlobal at h
    simp at h
  | .withStmt =>
    unfold convertGlobal at h
    simp at h
termination_by (sizeOf s, 0)
decreasing_by all_goals (simp_wf <;> omega)

/-- `loaderAdds_stmt` over a statement list. -/
theorem loaderAdds_list (l : List Stmt)
    (pkgName returnObjName funcPkgName classPkgName : String) (c : Nat) (g : GOut)
    (h : convertGlobalList pkgName l returnObjName funcPkgName classPkgName c = .ok g) :
    g.loaderAdds.map (fun x => (x.tag, nameAttr x)) =
      (classNamesPreList l).map (fun n => ("package", some (pkgName ++ "/" ++ n))) := by
  match l with
  | [] =>
    unfold convertGlobalList at h
    injection h with h2
    subst h2
    simp [classNamesPreList]
  | s :: rest =>
    unfold convertGlobalList at h
    split at h
    · simp at h
    next g1 heq1 =>
      split at h
      next g2 heq2 =>
        injection h with h2
        subst h2
        have ih1 := loaderAdds_stmt s pkgName returnObjName funcPkgName classPkgName c g1 heq1
        have ih2 := loaderAdds_list rest pkgName returnObjName funcPkgName classPkgName
          g1.counter g2 heq2
        simp [mergeG, classNamesPreList, ih1, ih2]
      next g2 heq2 => simp at h
termination_by (sizeOf l, 1)
decreasing_by all_goals (simp_wf <;> omega)

end

/-! ### Claim theorems -/

/-- C4: the Type-Name Mapper is total and side-effect-free; each name in
the fixed primitive set maps to its fixed code, the absence/`None`
sentinel maps to `LNone`, and every other identifier `X` maps to
`"L" ++ X`. -/
theorem type_name_mapper_spec :
    (convertString (.str "bool") = "Z" ∧ convertString (.str "int") = "int" ∧
     convertString (.str "float") = "D" ∧ convertString (.str "str") = "Lstring" ∧
     convertString (.str "list") = "Llist" ∧ convertString (.str "set") = "Lset" ∧
     convertString (.str "tuple") = "Ltuple" ∧ convertString (.str "dict") = "Ldict" ∧
     convertString (.str "None") = "LNone" ∧ convertString (.str "Any") = "Lobject") ∧
    convertString .noneV = "LNone" ∧
    ∀ s : String, s ∉ string2AriadneString.map Prod.fst →
      convertString (.str s) = "L" ++ s := by
  refine ⟨⟨rfl, rfl, rfl, rfl, rfl, rfl, rfl, rfl, rfl, rfl⟩, rfl, ?_⟩
  intro s hs
  simp only [string2AriadneString, List.map_cons, List.map_nil, List.mem_cons,
    List.not_mem_nil, or_false, not_or] at hs
  obtain ⟨h1, h2, h3, h4, h5, h6, h7, h8, h9, h10⟩ := hs
  have e1 : (s == "bool") = false := beq_eq_false_iff_ne.mpr h1
  have e2 : (s == "int") = false := beq_eq_false_iff_ne.mpr h2
  have e3 : (s == "float") = false := beq_eq_false_iff_ne.mpr h3
  have e4 : (s == "str") = false := beq_eq_false_iff_ne.mpr h4
  have e5 : (s == "list") = false := beq_eq_false_iff_ne.mpr h5
  have e6 : (s == "set") = false := beq_eq_false_iff_ne.mpr h6
  have e7 : (s == "tuple") = false := beq_eq_false_iff_ne.mpr h7
  have e8 : (s == "dict") = false := beq_eq_false_iff_ne.mpr h8
  have e9 : (s == "None") = false := beq_eq_false_iff_ne.mpr h9
  have e10 : (s == "Any") = false := beq_eq_false_iff_ne.mpr h10
  simp [convertString, string2AriadneString, List.lookup,
    e1, e2, e3, e4, e5, e6, e7, e8, e9, e10]

/-- Witness for C4 at the non-primitive identifier `Foo`. -/
theorem type_name_mapper_spec_witness :
    "Foo" ∉ string2AriadneString.map Prod.fst ∧
      convertString (.str "Foo") = "L" ++ "Foo" :=
  ⟨by decide, type_name_mapper_spec.2.2 "Foo" (by decide)⟩

/-- C5: starting from a fresh counter, the `k`-th allocator call
(zero-based) returns exactly `"_typeshed"` followed by the decimal
numeral of `k` — so suffixes are strictly increasing in call order — and
no two calls in one run return the same string. -/
theorem tmp_name_allocator_spec (n : Nat) :
    allocRun n 0 = (List.range n).map (fun k => "_typeshed" ++ pyRepr k) ∧
    (allocRun n 0).Pairwise (· ≠ ·) := by
  have he : allocRun n 0 = (List.range n).map (fun k => tmpName k) := by
    rw [allocRun_eq]
    simp
  constructor
  · rw [he]; rfl
  · rw [he]
    refine List.Pairwise.map _ ?_ (List.pairwise_lt_range n)
    intro a b hab hEq
    exact absurd (tmpName_inj hEq) (by omega)

/-- C3 counterexample: a function definition with no return annotation
does not translate successfully (the claim asserts translation succeeds
and emits an `LNone` construct). -/
theorem absent_return_annotation_fails_concrete :
    (convertGlobal "pkg" (.functionDef "f" ⟨[], []⟩ [] none)
      "obj_typeshed_" "pkg/function" "pkg/class" 0).isOk = false := by
  simp [convertGlobal, scanDecorators, convertReturn, convertExpr, getExprType, Res.isOk]

/-- C3 (amended): for every function definition whose return annotation is
absent (and whose decorator scan falls through to translation), the `None`
annotation reaches `_get_expr_type`, whose catch-all assertion fires:
translation aborts, the `do` method body is left empty, and no `LNone`
object is constructed or returned. -/
theorem absent_return_annotation_aborts
    (funcName : String) (args : Arguments) (decorators : List Expr)
    (h : scanDecorators decorators = some false)
    (pkgName returnObjName funcPkgName classPkgName : String) (c : Nat) :
    convertGlobal pkgName (.functionDef funcName args decorators none)
      returnObjName funcPkgName classPkgName c =
    .err ⟨c + 1,
      [newTag (funcName ++ "_typeshed_") ("L" ++ funcPkgName ++ "/" ++ funcName),
       putfieldTag funcName returnObjName (funcName ++ "_typeshed_")],
      [Xml.elem "class" [("name", funcName), ("allocatable", "true")]
        [Xml.elem "method"
          [("name", "do"), ("descriptor", "()LRoot;"),
           ("num_args", pyRepr (getNumArgs args)),
           ("param_names", getArgNames args), ("static", "true")] []]],
      [], []⟩ := by
  simp [convertGlobal, h, convertReturn, convertExpr, getExprType]

/-- Witness for the amended C3 at `def f(): ...`. -/
theorem absent_return_annotation_aborts_witness :
    scanDecorators [] = some false ∧
    convertGlobal "pkg" (.functionDef "f" ⟨[], []⟩ [] none)
      "obj_typeshed_" "pkg/function" "pkg/class" 0 =
    .err ⟨0 + 1,
      [newTag ("f" ++ "_typeshed_") ("L" ++ "pkg/function" ++ "/" ++ "f"),
       putfieldTag "f" "obj_typeshed_" ("f" ++ "_typeshed_")],
      [Xml.elem "class" [("name", "f"), ("allocatable", "true")]
        [Xml.elem "method"
          [("name", "do"), ("descriptor", "()LRoot;"),
           ("num_args", pyRepr (getNumArgs ⟨[], []⟩)),
           ("param_names", getArgNames ⟨[], []⟩), ("static", "true")] []]],
      [], []⟩ :=
  ⟨rfl, absent_return_annotation_aborts "f" ⟨[], []⟩ [] rfl
    "pkg" "obj_typeshed_" "pkg/function" "pkg/class" 0⟩

/-- C6: a function definition whose decorator list contains a plain-name
`overload` decorator emits nothing at all: counter, method-body appends,
function-package appends, class-package appends and classloader appends
are all left exactly as they were. -/
theorem overload_decorator_emits_nothing
    (funcName : String) (args : Arguments) (decorators : List Expr)
    (returns : Option Expr) (h : Expr.name "overload" ∈ decorators)
    (pkgName returnObjName funcPkgName classPkgName : String) (c : Nat) :
    (convertGlobal pkgName (.functionDef funcName args decorators returns)
      returnObjName funcPkgName classPkgName c).val = ⟨c, [], [], [], []⟩ := by
  rcases hscan : scanDecorators decorators with _ | b
  · simp [convertGlobal, hscan, Res.val]
  · match b with
    | true => simp [convertGlobal, hscan, Res.val]
    | false => exact absurd hscan (scanDecorators_of_mem_overload h)

/-- Witness for C6 at `@overload def f(): ...`. -/
theorem overload_decorator_emits_nothing_witness :
    Expr.name "overload" ∈ [Expr.name "overload"] ∧
    (convertGlobal "pkg"
      (.functionDef "f" ⟨[], []⟩ [Expr.name "overload"] none)
      "obj_typeshed_" "pkg/function" "pkg/class" 0).val = ⟨0, [], [], [], []⟩ :=
  ⟨List.mem_cons_self _ _,
   overload_decorator_emits_nothing "f" ⟨[], []⟩ [Expr.name "overload"] none
     (List.mem_cons_self _ _) "pkg" "obj_typeshed_" "pkg/function" "pkg/class" 0⟩

/-- C7: a top-level statement outside the recognized set makes translation
abort immediately (nothing emitted for it, and the rest of the statement
list is not processed); a type expression outside the recognized set makes
the expression translator abort with nothing emitted. -/
theorem unsupported_node_aborts :
    (∀ s : Stmt, recognizedTopStmt s = false →
      ∀ pkgName returnObjName funcPkgName classPkgName c (rest : List Stmt),
        convertGlobalList pkgName (s :: rest) returnObjName funcPkgName classPkgName c =
          .err ⟨c, [], [], [], []⟩) ∧
    (∀ e : Expr, recognizedTypeExpr e = false →
      ∀ putVarName index c,
        convertExpr (some e) putVarName index c = .err ⟨c + 1, [], tmpName c⟩) := by
  constructor
  · intro s hs pkgName returnObjName funcPkgName classPkgName c rest
    cases s <;> simp_all [recognizedTopStmt, convertGlobalList, convertGlobal]
  · intro e he putVarName index c
    cases e <;> simp_all [recognizedTypeExpr, convertExpr, getExprType]

/-- Witness for C7 at a `for` statement and an attribute-reference type
expression. -/
theorem unsupported_node_aborts_witness :
    recognizedTopStmt .forStmt = false ∧
    recognizedTypeExpr (.attribute (.name "typing") "overload") = false ∧
    convertGlobalList "pkg" [.forStmt] "obj_typeshed_" "pkg/function" "pkg/class" 0 =
      .err ⟨0, [], [], [], []⟩ ∧
    convertExpr (some (.attribute (.name "typing") "overload")) none 0 0 =
      .err ⟨0 + 1, [], tmpName 0⟩ :=
  ⟨rfl, rfl,
   unsupported_node_aborts.1 .forStmt rfl "pkg" "obj_typeshed_" "pkg/function" "pkg/class" 0 [],
   unsupported_node_aborts.2 (.attribute (.name "typing") "overload") rfl none 0 0⟩

/-- C9 counterexample: a function whose decorator list contains a
non-`Name` decorator (here `typing.overload`, an attribute reference) after
a plain `overload` name is silently skipped — translation returns
successfully with nothing emitted, it does not abort. -/
theorem non_name_decorator_after_overload_skips :
    convertGlobal "pkg"
      (.functionDef "f" ⟨[], []⟩
        [.name "overload", .attribute (.name "typing") "overload"]
        (some (.name "int")))
      "obj_typeshed_" "pkg/function" "pkg/class" 0 = .ok ⟨0, [], [], [], []⟩ := by
  simp [convertGlobal, scanDecorators]

/-- C9 (amended): a function definition whose decorator list contains a
non-`Name` decorator preceded only by plain-name decorators not named
`overload` makes translation abort with an assertion failure before any
instruction is emitted for that function. -/
theorem non_name_decorator_aborts
    (pre : List Expr) (d : Expr) (suf : List Expr)
    (hpre : ∀ x ∈ pre, ∃ id, x = Expr.name id ∧ id ≠ "overload")
    (hd : ∀ id, d ≠ Expr.name id)
    (funcName : String) (args : Arguments) (returns : Option Expr)
    (pkgName returnObjName funcPkgName classPkgName : String) (c : Nat) :
    convertGlobal pkgName (.functionDef funcName args (pre ++ d :: suf) returns)
      returnObjName funcPkgName classPkgName c = .err ⟨c, [], [], [], []⟩ := by
  have hs := scanDecorators_aborts pre d suf hpre hd
  simp [convertGlobal, hs]

/-- Witness for the amended C9 at `@typing.overload def f() -> int: ...`. -/
theorem non_name_decorator_aborts_witness :
    (∀ x ∈ ([] : List Expr), ∃ id, x = Expr.name id ∧ id ≠ "overload") ∧
    (∀ id, Expr.attribute (.name "typing") "overload" ≠ Expr.name id) ∧
    convertGlobal "pkg"
      (.functionDef "f" ⟨[], []⟩
        ([] ++ Expr.attribute (.name "typing") "overload" :: [])
        (some (.name "int")))
      "obj_typeshed_" "pkg/function" "pkg/class" 0 = .err ⟨0, [], [], [], []⟩ :=
  ⟨fun x hx => absurd hx (List.not_mem_nil x),
   fun _ h => Expr.noConfusion h,
   non_name_decorator_aborts [] (Expr.attribute (.name "typing") "overload") []
     (fun x hx => absurd hx (List.not_mem_nil x))
     (fun _ h => Expr.noConfusion h)
     "f" ⟨[], []⟩ (some (.name "int"))
     "pkg" "obj_typeshed_" "pkg/function" "pkg/class" 0⟩

/-- C10: for a completed conversion, the direct children of the
classloader element are the module class, the `function` and `class`
packages, and then exactly one package per class definition (at any
nesting depth, in preorder), each named `<root package>/<class's own
name>` — enclosing class names never appear, so same-named classes at
different nesting positions receive identically named packages. -/
theorem class_package_names_root_qualified
    (pkgName : String) (body : List Stmt) (doc : Xml)
    (h : convert pkgName body = .ok doc) :
    (loaderChildren doc).map (fun x => (x.tag, nameAttr x)) =
      ("class", some pkgName) ::
      ("package", some (pkgName ++ "/function")) ::
      ("package", some (pkgName ++ "/class")) ::
      (classNamesPreList body).map (fun n => ("package", some (pkgName ++ "/" ++ n))) := by
  unfold convert at h
  split at h
  next g heq =>
    injection h with h2
    subst h2
    have hl := loaderAdds_list body pkgName "obj_typeshed_"
      (pkgName ++ "/function") (pkgName ++ "/class") 0 g heq
    simp only [summarySpec, loaderChildren, Xml.children, List.headD, List.map_append]
    rw [hl]
    simp [Xml.tag, nameAttr, Xml.attrList, List.lookup]
  next g heq => simp at h

/-- Witness for C10: a module with `class A` (containing a nested
`class B`) and a top-level `class B` — the nested and top-level `B`
receive the identically named package `pkg/B`. -/
theorem class_package_names_root_qualified_witness :
    convert "pkg" [.classDef "A" [.classDef "B" []], .classDef "B" []] =
      .ok ((convert "pkg" [.classDef "A" [.classDef "B" []], .classDef "B" []]).val) ∧
    (loaderChildren
        ((convert "pkg" [.classDef "A" [.classDef "B" []], .classDef "B" []]).val)).map
      (fun x => (x.tag, nameAttr x)) =
      ("class", some "pkg") ::
      ("package", some ("pkg" ++ "/function")) ::
      ("package", some ("pkg" ++ "/class")) ::
      (classNamesPreList [.classDef "A" [.classDef "B" []], .classDef "B" []]).map
        (fun n => ("package", some ("pkg" ++ "/" ++ n))) :=
  have hok : convert "pkg" [.classDef "A" [.classDef "B" []], .classDef "B" []] =
      .ok ((convert "pkg" [.classDef "A" [.classDef "B" []], .classDef "B" []]).val) := by
    simp [convert, convertGlobalList, convertGlobal, Res.val, mergeG]
  ⟨hok, class_package_names_root_qualified "pkg" _ _ hok⟩

/-- If the expression translation of the annotation succeeds, the
`return` wrapper appends a single `return` instruction naming the
expression's result object. -/
theorem convertReturn_ok (ret : Option Expr) (c c2 : Nat)
    (l l2 : List Xml) (nm : String)
    (h : convertExpr ret none 0 c = .ok ⟨c2, l, nm⟩)
    (h2 : l ++ [returnTag nm] = l2) :
    convertReturn ret c = .ok (c2, l2) := by
  unfold convertReturn
  rw [h]
  dsimp only []
  rw [h2]

/-- The `FunctionDef` branch of `convert_global` when the decorator scan
falls through and the return-annotation translation succeeds: the
function object is constructed and attached, and the class-package entry
holds a static `do` method whose body is the translated return. -/
theorem convertGlobal_functionDef_ok (pkgName funcName : String)
    (args : Arguments) (decorators : List Expr) (returns : Option Expr)
    (returnObjName funcPkgName classPkgName : String) (c c2 : Nat)
    (body : List Xml)
    (hd : scanDecorators decorators = some false)
    (hr : convertReturn returns c = .ok (c2, body)) :
    convertGlobal pkgName (.functionDef funcName args decorators returns)
      returnObjName funcPkgName classPkgName c =
    .ok ⟨c2,
      [newTag (funcName ++ "_typeshed_") ("L" ++ funcPkgName ++ "/" ++ funcName),
       putfieldTag funcName returnObjName (funcName ++ "_typeshed_")],
      [Xml.elem "class" [("name", funcName), ("allocatable", "true")]
        [Xml.elem "method"
          [("name", "do"), ("descriptor", "()LRoot;"),
           ("num_args", pyRepr (getNumArgs args)),
           ("param_names", getArgNames args), ("static", "true")]
          body]], [], []⟩ := by
  unfold convertGlobal
  dsimp only []
  rw [hd]
  dsimp only []
  rw [hr]

/-- The empty top-level list adds nothing and keeps the counter. -/
theorem convertGlobalList_nil_ok
    (pkgName returnObjName funcPkgName classPkgName : String) (c : Nat) :
    convertGlobalList pkgName [] returnObjName funcPkgName classPkgName c =
      .ok ⟨c, [], [], [], []⟩ := by
  unfold convertGlobalList
  rfl

/-- Sequencing of the top-level loop: a successful head followed by a
successful tail merges the two append records. -/
theorem convertGlobalList_cons_ok
    (pkgName returnObjName funcPkgName classPkgName : String)
    (t : Stmt) (rest : List Stmt) (c : Nat) (g g2 : GOut)
    (h1 : convertGlobal pkgName t returnObjName funcPkgName classPkgName c = .ok g)
    (h2 : convertGlobalList pkgName rest returnObjName funcPkgName classPkgName
        g.counter = .ok g2) :
    convertGlobalList pkgName (t :: rest) returnObjName funcPkgName classPkgName c =
      .ok (mergeG g g2) := by
  unfold convertGlobalList
  rw [h1]
  dsimp only []
  rw [h2]

/-- The `ClassDef` branch of `convert_global` when the recursion over the
class body succeeds: the instance is constructed and attached, the
class-body entry's non-static `do` method wraps the body's instructions
between the seeding `new` and a `return`, and the per-class method
package collects the body's function-package additions. -/
theorem convertGlobal_classDef_ok (pkgName className : String)
    (body : List Stmt) (returnObjName funcPkgName classPkgName : String)
    (c : Nat) (g : GOut)
    (h : convertGlobalList pkgName body (className ++ "_typeshed_")
        (pkgName ++ "/" ++ className) classPkgName c = .ok g) :
    convertGlobal pkgName (.classDef className body)
      returnObjName funcPkgName classPkgName c =
    .ok ⟨g.counter,
      [newTag (className ++ "_typeshed_") ("L" ++ classPkgName ++ "/" ++ className),
       putfieldTag className returnObjName (className ++ "_typeshed_")],
      [],
      (Xml.elem "class" [("name", className), ("allocatable", "true")]
        [Xml.elem "method" [("name", "do"), ("descriptor", "()LRoot;")]
          (newTag (className ++ "_typeshed_") ("L" ++ classPkgName ++ "/" ++ className)
            :: (g.instrs ++ [returnTag (className ++ "_typeshed_")]))])
        :: g.classPkgAdds,
      (Xml.elem "package" [("name", pkgName ++ "/" ++ className)] g.funcPkgAdds)
        :: g.loaderAdds⟩ := by
  unfold convertGlobal
  dsimp only []
  rw [h]

/-- C1: for every function definition with return annotation
`Tuple[int, str]` (whose decorator scan falls through to translation),
the generated `do` method body contains exactly one `new` for the tuple
root, then one `new` with descriptor `int` and one with `Lstring`, each
followed by a `putfield` whose field index is `0` resp. `1` and whose ref
is the tuple root's generated name, and the body ends with a `return` of
the tuple root's name. -/
theorem tuple_int_str_return_shape
    (funcName : String) (args : Arguments) (decorators : List Expr)
    (h : scanDecorators decorators = some false)
    (pkgName returnObjName funcPkgName classPkgName : String) (c : Nat) :
    convertGlobal pkgName
      (.functionDef funcName args decorators
        (some (.subscript (.name "Tuple") (.tuple [.name "int", .name "str"]))))
      returnObjName funcPkgName classPkgName c =
    .ok ⟨c + 3,
      [newTag (funcName ++ "_typeshed_") ("L" ++ funcPkgName ++ "/" ++ funcName),
       putfieldTag funcName returnObjName (funcName ++ "_typeshed_")],
      [Xml.elem "class" [("name", funcName), ("allocatable", "true")]
        [Xml.elem "method"
          [("name", "do"), ("descriptor", "()LRoot;"),
           ("num_args", pyRepr (getNumArgs args)),
           ("param_names", getArgNames args), ("static", "true")]
          [newTag (tmpName c) "LTuple",
           newTag (tmpName (c + 1)) "int",
           putfieldTag "0" (tmpName c) (tmpName (c + 1)),
           newTag (tmpName (c + 2)) "Lstring",
           putfieldTag "1" (tmpName c) (tmpName (c + 2)),
           returnTag (tmpName c)]]],
      [], []⟩ := by
  have hce : convertExpr
      (some (.subscript (.name "Tuple") (.tuple [.name "int", .name "str"]))) none 0 c =
      .ok (⟨c + 3, [newTag (tmpName c) "LTuple",
        newTag (tmpName (c + 1)) "int",
        putfieldTag "0" (tmpName c) (tmpName (c + 1)),
        newTag (tmpName (c + 2)) "Lstring",
        putfieldTag "1" (tmpName c) (tmpName (c + 2))], tmpName c⟩ : EmitE) := by
    have p0 : pyRepr 0 = "0" := by
      simp [pyRepr, pyReprAux]
      rfl
    have p1 : pyRepr 1 = "1" := by
      simp [pyRepr, pyReprAux]
      rfl
    have hty_int : getExprType (some (.name "int")) = some "int" := by
      simp [getExprType, convertString, string2AriadneString, List.lookup]
    have hty_str : getExprType (some (.name "str")) = some "Lstring" := by
      simp [getExprType, convertString, string2AriadneString, List.lookup]
    have hty_tuple : getExprType (some (.name "Tuple")) = some "LTuple" := by
      simp [getExprType, convertString, string2AriadneString, List.lookup]
    have e1 : convertExpr (some (.name "int")) (some (tmpName c)) 0 (c + 1) =
        .ok ⟨c + 2, [newTag (tmpName (c + 1)) "int",
          putfieldTag "0" (tmpName c) (tmpName (c + 1))], tmpName (c + 1)⟩ := by
      unfold convertExpr
      dsimp only []
      rw [hty_int, p0]
      rfl
    have e2 : convertExpr (some (.name "str")) (some (tmpName c)) 1 (c + 2) =
        .ok ⟨c + 3, [newTag (tmpName (c + 2)) "Lstring",
          putfieldTag "1" (tmpName c) (tmpName (c + 2))], tmpName (c + 2)⟩ := by
      unfold convertExpr
      dsimp only []
      rw [hty_str, p1]
      rfl
    have el : convertExprList [.name "int", .name "str"] (tmpName c) 0 (c + 1) =
        .ok (c + 3, [newTag (tmpName (c + 1)) "int",
          putfieldTag "0" (tmpName c) (tmpName (c + 1)),
          newTag (tmpName (c + 2)) "Lstring",
          putfieldTag "1" (tmpName c) (tmpName (c + 2))]) := by
      unfold convertExprList
      rw [e1]
      dsimp only []
      unfold convertExprList
      rw [e2]
      dsimp only []
      unfold convertExprList
      rfl
    unfold convertExpr
    dsimp only []
    rw [hty_tuple, el]
  have hcr : convertReturn
      (some (.subscript (.name "Tuple") (.tuple [.name "int", .name "str"]))) c =
      .ok (c + 3, [newTag (tmpName c) "LTuple",
        newTag (tmpName (c + 1)) "int",
        putfieldTag "0" (tmpName c) (tmpName (c + 1)),
        newTag (tmpName (c + 2)) "Lstring",
        putfieldTag "1" (tmpName c) (tmpName (c + 2)),
        returnTag (tmpName c)]) :=
    convertReturn_ok _ c _ _ _ _ hce (by simp)
  exact convertGlobal_functionDef_ok pkgName funcName args decorators _
    returnObjName funcPkgName classPkgName c (c + 3) _ h hcr

/-- Witness for C1 at `def f() -> Tuple[int, str]: ...`. -/
theorem tuple_int_str_return_shape_witness :
    scanDecorators [] = some false ∧
    convertGlobal "pkg"
      (.functionDef "f" ⟨[], []⟩ []
        (some (.subscript (.name "Tuple") (.tuple [.name "int", .name "str"]))))
      "obj_typeshed_" "pkg/function" "pkg/class" 0 =
    .ok ⟨0 + 3,
      [newTag ("f" ++ "_typeshed_") ("L" ++ "pkg/function" ++ "/" ++ "f"),
       putfieldTag "f" "obj_typeshed_" ("f" ++ "_typeshed_")],
      [Xml.elem "class" [("name", "f"), ("allocatable", "true")]
        [Xml.elem "method"
          [("name", "do"), ("descriptor", "()LRoot;"),
           ("num_args", pyRepr (getNumArgs ⟨[], []⟩)),
           ("param_names", getArgNames ⟨[], []⟩), ("static", "true")]
          [newTag (tmpName 0) "LTuple",
           newTag (tmpName (0 + 1)) "int",
           putfieldTag "0" (tmpName 0) (tmpName (0 + 1)),
           newTag (tmpName (0 + 2)) "Lstring",
           putfieldTag "1" (tmpName 0) (tmpName (0 + 2)),
           returnTag (tmpName 0)]]],
      [], []⟩ :=
  ⟨rfl, tuple_int_str_return_shape "f" ⟨[], []⟩ [] rfl
    "pkg" "obj_typeshed_" "pkg/function" "pkg/class" 0⟩

/-- C2 counterexample: for a class with two methods, the single `do`
method of its class-body entry is not static — its attribute list
carries only `name` and `descriptor`, with no `static` attribute, while
the claim requires a static `do` method. -/
theorem class_do_method_not_static :
    ((convertGlobal "pkg"
        (.classDef "C"
          [.functionDef "a" ⟨[], []⟩ [] (some (.name "int")),
           .functionDef "b" ⟨[], []⟩ [] (some (.name "int"))])
        "obj_typeshed_" "pkg/function" "pkg/class" 0).val.classPkgAdds.map
      (fun x => x.children.map
        (fun m => (nameAttr m, m.attrList.lookup "static")))) =
    [[(some "do", none)]] := by
  have hA : convertReturn (some (.name "int")) 0 =
      .ok (1, [newTag (tmpName 0) "int", returnTag (tmpName 0)]) := by
    simp [convertReturn, convertExpr, getExprType, convertString, string2AriadneString,
          List.lookup]
  have hB : convertReturn (some (.name "int")) 1 =
      .ok (2, [newTag (tmpName 1) "int", returnTag (tmpName 1)]) := by
    simp [convertReturn, convertExpr, getExprType, convertString, string2AriadneString,
          List.lookup]
  have hs : scanDecorators ([] : List Expr) = some false := rfl
  have hga := convertGlobal_functionDef_ok "pkg" "a" ⟨[], []⟩ [] (some (.name "int"))
    ("C" ++ "_typeshed_") ("pkg" ++ "/" ++ "C") "pkg/class" 0 1 _ hs hA
  have hgb := convertGlobal_functionDef_ok "pkg" "b" ⟨[], []⟩ [] (some (.name "int"))
    ("C" ++ "_typeshed_") ("pkg" ++ "/" ++ "C") "pkg/class" 1 2 _ hs hB
  have hnil := convertGlobalList_nil_ok "pkg" ("C" ++ "_typeshed_")
    ("pkg" ++ "/" ++ "C") "pkg/class" 2
  have hl2 := convertGlobalList_cons_ok "pkg" ("C" ++ "_typeshed_")
    ("pkg" ++ "/" ++ "C") "pkg/class"
    (.functionDef "b" ⟨[], []⟩ [] (some (.name "int"))) [] 1 _ _ hgb hnil
  have hl1 := convertGlobalList_cons_ok "pkg" ("C" ++ "_typeshed_")
    ("pkg" ++ "/" ++ "C") "pkg/class"
    (.functionDef "a" ⟨[], []⟩ [] (some (.name "int")))
    [.functionDef "b" ⟨[], []⟩ [] (some (.name "int"))] 0 _ _ hga hl2
  have hcd := convertGlobal_classDef_ok "pkg" "C"
    [.functionDef "a" ⟨[], []⟩ [] (some (.name "int")),
     .functionDef "b" ⟨[], []⟩ [] (some (.name "int"))]
    "obj_typeshed_" "pkg/function" "pkg/class" 0 _ hl1
  rw [hcd]
  simp [mergeG, Res.val, Xml.children, Xml.attrList, nameAttr, List.lookup]

/-- C2 (amended): for a class definition with two methods `a` and `b`
(whose return annotations translate successfully), the class-body package
receives a class element named after the class containing exactly one
`do` method — declared with only `name` and `descriptor` attributes, i.e.
not marked static — whose body first constructs an instance of that
class, then attaches two fields named `a` and `b` via `putfield`
instructions on that instance, each pointing at a synthetic function
object built by the function rule (whose class elements populate the
per-class method package), and whose last instruction is a `return` of
the constructed instance's name. -/
theorem class_body_do_method_shape
    (className a b : String) (argsA argsB : Arguments) (retA retB : Option Expr)
    (c cA cB : Nat) (bodyA bodyB : List Xml)
    (hA : convertReturn retA c = .ok (cA, bodyA))
    (hB : convertReturn retB cA = .ok (cB, bodyB))
    (pkgName returnObjName funcPkgName classPkgName : String) :
    convertGlobal pkgName
      (.classDef className
        [.functionDef a argsA [] retA, .functionDef b argsB [] retB])
      returnObjName funcPkgName classPkgName c =
    .ok ⟨cB,
      [newTag (className ++ "_typeshed_") ("L" ++ classPkgName ++ "/" ++ className),
       putfieldTag className returnObjName (className ++ "_typeshed_")],
      [],
      [Xml.elem "class" [("name", className), ("allocatable", "true")]
        [Xml.elem "method" [("name", "do"), ("descriptor", "()LRoot;")]
          [newTag (className ++ "_typeshed_") ("L" ++ classPkgName ++ "/" ++ className),
           newTag (a ++ "_typeshed_") ("L" ++ (pkgName ++ "/" ++ className) ++ "/" ++ a),
           putfieldTag a (className ++ "_typeshed_") (a ++ "_typeshed_"),
           newTag (b ++ "_typeshed_") ("L" ++ (pkgName ++ "/" ++ className) ++ "/" ++ b),
           putfieldTag b (className ++ "_typeshed_") (b ++ "_typeshed_"),
           returnTag (className ++ "_typeshed_")]]],
      [Xml.elem "package" [("name", pkgName ++ "/" ++ className)]
        [Xml.elem "class" [("name", a), ("allocatable", "true")]
          [Xml.elem "method"
            [("name", "do"), ("descriptor", "()LRoot;"),
             ("num_args", pyRepr (getNumArgs argsA)),
             ("param_names", getArgNames argsA), ("static", "true")] bodyA],
         Xml.elem "class" [("name", b), ("allocatable", "true")]
          [Xml.elem "method"
            [("name", "do"), ("descriptor", "()LRoot;"),
             ("num_args", pyRepr (getNumArgs argsB)),
             ("param_names", getArgNames argsB), ("static", "true")] bodyB]]]⟩ := by
  have hs : scanDecorators ([] : List Expr) = some false := rfl
  have hga := convertGlobal_functionDef_ok pkgName a argsA [] retA
    (className ++ "_typeshed_") (pkgName ++ "/" ++ className) classPkgName c cA bodyA
    hs hA
  have hgb := convertGlobal_functionDef_ok pkgName b argsB [] retB
    (className ++ "_typeshed_") (pkgName ++ "/" ++ className) classPkgName cA cB bodyB
    hs hB
  have hnil := convertGlobalList_nil_ok pkgName (className ++ "_typeshed_")
    (pkgName ++ "/" ++ className) classPkgName cB
  have hl2 := convertGlobalList_cons_ok pkgName (className ++ "_typeshed_")
    (pkgName ++ "/" ++ className) classPkgName (.functionDef b argsB [] retB) []
    cA _ _ hgb hnil
  have hl1 := convertGlobalList_cons_ok pkgName (className ++ "_typeshed_")
    (pkgName ++ "/" ++ className) classPkgName (.functionDef a argsA [] retA)
    [.functionDef b argsB [] retB] c _ _ hga hl2
  have hcd := convertGlobal_classDef_ok pkgName className
    [.functionDef a argsA [] retA, .functionDef b argsB [] retB]
    returnObjName funcPkgName classPkgName c _ hl1
  rw [hcd]
  simp [mergeG]

/-- Witness for the amended C2 at a class `C` with methods
`a(self) -> int` and `b(self) -> str`. -/
theorem class_body_do_method_shape_witness :
    convertReturn (some (.name "int")) 0 =
      .ok (1, [newTag (tmpName 0) "int", returnTag (tmpName 0)]) ∧
    convertReturn (some (.name "str")) 1 =
      .ok (2, [newTag (tmpName 1) "Lstring", returnTag (tmpName 1)]) ∧
    convertGlobal "pkg"
      (.classDef "C"
        [.functionDef "a" ⟨["self"], []⟩ [] (some (.name "int")),
         .functionDef "b" ⟨["self"], []⟩ [] (some (.name "str"))])
      "obj_typeshed_" "pkg/function" "pkg/class" 0 =
    .ok ⟨2,
      [newTag ("C" ++ "_typeshed_") ("L" ++ "pkg/class" ++ "/" ++ "C"),
       putfieldTag "C" "obj_typeshed_" ("C" ++ "_typeshed_")],
      [],
      [Xml.elem "class" [("name", "C"), ("allocatable", "true")]
        [Xml.elem "method" [("name", "do"), ("descriptor", "()LRoot;")]
          [newTag ("C" ++ "_typeshed_") ("L" ++ "pkg/class" ++ "/" ++ "C"),
           newTag ("a" ++ "_typeshed_") ("L" ++ ("pkg" ++ "/" ++ "C") ++ "/" ++ "a"),
           putfieldTag "a" ("C" ++ "_typeshed_") ("a" ++ "_typeshed_"),
           newTag ("b" ++ "_typeshed_") ("L" ++ ("pkg" ++ "/" ++ "C") ++ "/" ++ "b"),
           putfieldTag "b" ("C" ++ "_typeshed_") ("b" ++ "_typeshed_"),
           returnTag ("C" ++ "_typeshed_")]]],
      [Xml.elem "package" [("name", "pkg" ++ "/" ++ "C")]
        [Xml.elem "class" [("name", "a"), ("allocatable", "true")]
          [Xml.elem "method"
            [("name", "do"), ("descriptor", "()LRoot;"),
             ("num_args", pyRepr (getNumArgs ⟨["self"], []⟩)),
             ("param_names", getArgNames ⟨["self"], []⟩), ("static", "true")]
            [newTag (tmpName 0) "int", returnTag (tmpName 0)]],
         Xml.elem "class" [("name", "b"), ("allocatable", "true")]
          [Xml.elem "method"
            [("name", "do"), ("descriptor", "()LRoot;"),
             ("num_args", pyRepr (getNumArgs ⟨["self"], []⟩)),
             ("param_names", getArgNames ⟨["self"], []⟩), ("static", "true")]
            [newTag (tmpName 1) "Lstring", returnTag (tmpName 1)]]]]⟩ :=
  have hA : convertReturn (some (.name "int")) 0 =
      .ok (1, [newTag (tmpName 0) "int", returnTag (tmpName 0)]) := by
    simp [convertReturn, convertExpr, getExprType, convertString, string2AriadneString,
          List.lookup]
  have hB : convertReturn (some (.name "str")) 1 =
      .ok (2, [newTag (tmpName 1) "Lstring", returnTag (tmpName 1)]) := by
    simp [convertReturn, convertExpr, getExprType, convertString, string2AriadneString,
          List.lookup]
  ⟨hA, hB, class_body_do_method_shape "C" "a" "b" ⟨["self"], []⟩ ⟨["self"], []⟩
    (some (.name "int")) (some (.name "str")) 0 1 2 _ _ hA hB
    "pkg" "obj_typeshed_" "pkg/function" "pkg/class"⟩

/-- C8 counterexample: a module with a single top-level function named
`obj` translates to completion, yet the import method body contains two
`new` instructions whose construction target is the same symbolic name
`obj_typeshed_` (the fixed return-object name collides with the declared
name derived from the identifier `obj`). -/
theorem duplicate_construct_target_exists :
    (convert "pkg" [.functionDef "obj" ⟨[], []⟩ [] (some (.name "int"))]).isOk = true ∧
    (allMethodBodies
        (convert "pkg" [.functionDef "obj" ⟨[], []⟩ [] (some (.name "int"))]).val).map
      newDefs = [["obj_typeshed_", "obj_typeshed_"], [tmpName 0]] ∧
    ¬ (["obj_typeshed_", "obj_typeshed_"] : List String).Nodup := by
  refine ⟨?_, ?_, by decide⟩
  · simp [convert, convertGlobalList, convertGlobal, scanDecorators, convertReturn,
      convertExpr, getExprType, convertString, string2AriadneString, List.lookup,
      mergeG, Res.isOk]
  · simp [convert, convertGlobalList, convertGlobal, scanDecorators, convertReturn,
      convertExpr, getExprType, convertString, string2AriadneString, List.lookup,
      mergeG, Res.val, summarySpec, allMethodBodies, allMethodBodiesList, newDefs,
      newTag, putfieldTag, returnTag]

/-- C8 (amended): for every stub module whose translation completes, and
for every method body in the resulting document, no two `new`
instructions in that method body use the same generated name
(`_typeshed<N>`) as their construction target. -/
theorem generated_construct_targets_distinct
    (pkgName : String) (body : List Stmt) (doc : Xml)
    (h : convert pkgName body = .ok doc) :
    ∀ mb ∈ allMethodBodies doc, (newDefs mb).Pairwise GenDistinct := by
  have ih := convertGlobalList_good body pkgName "obj_typeshed_"
    (pkgName ++ "/function") (pkgName ++ "/class") 0
  unfold convert at h
  split at h
  next g heq =>
    injection h with h2
    subst h2
    rw [heq] at ih
    dsimp only [Res.val] at ih
    obtain ⟨a1, b1, d1, e1⟩ := ih
    intro mb hmb
    unfold summarySpec at hmb
    dsimp only [] at hmb
    simp [aMB_elem, aMB_newTag, aMB_putfieldTag, aMB_returnTag, aMBL_cons, aMBL_nil,
      allMethodBodiesList_append, d1] at hmb
    rcases hmb with h | h | h | h
    · subst h
      rw [newDefs_newTag_cons, newDefs_append_return]
      have hdecl : ∀ k, "obj_typeshed_" ≠ tmpName k := by
        intro k
        have hd := declared_ne_tmpName "obj" k
        simpa using hd
      exact (GoodList.cons_declared hdecl b1).2
    · exact (e1 mb (aMBL_mem_three.mpr (Or.inl h))).2
    · exact (e1 mb (aMBL_mem_three.mpr (Or.inr (Or.inl h)))).2
    · exact (e1 mb (aMBL_mem_three.mpr (Or.inr (Or.inr h)))).2
  next g heq => simp at h

/-- Witness for the amended C8 at `def f() -> int: ...`. -/
theorem generated_construct_targets_distinct_witness :
    convert "pkg" [.functionDef "f" ⟨[], []⟩ [] (some (.name "int"))] =
      .ok ((convert "pkg" [.functionDef "f" ⟨[], []⟩ [] (some (.name "int"))]).val) ∧
    ∀ mb ∈ allMethodBodies
        ((convert "pkg" [.functionDef "f" ⟨[], []⟩ [] (some (.name "int"))]).val),
      (newDefs mb).Pairwise GenDistinct :=
  have hok : convert "pkg" [.functionDef "f" ⟨[], []⟩ [] (some (.name "int"))] =
      .ok ((convert "pkg" [.functionDef "f" ⟨[], []⟩ [] (some (.name "int"))]).val) := by
    simp [convert, convertGlobalList, convertGlobal, scanDecorators, convertReturn,
      convertExpr, getExprType, convertString, string2AriadneString, List.lookup,
      mergeG, Res.val]
  ⟨hok, generated_construct_targets_distinct "pkg" _ _ hok⟩

end Typeshed
